import Mathlib

/-!
# The JOS kernel monitor (`kern/monitor.c`)

A shallow embedding of the kernel monitor: the command table, the three
built-in commands (`help`, `kerninfo`, `backtrace`), the frame-pointer walk
of `mon_backtrace`, the in-place tokenizer and dispatcher `runcmd`.

Conventions of the embedding.

* Text is `List Char`.  A C string is read from a list of bytes up to the
  first NUL; the end of a list reads as NUL as well, so a list without NUL
  stands for a buffer whose terminator directly follows it.
* The console is the sequence of `cprintf` calls made so far, each recorded
  with its format string and its arguments; `render` turns it into the text
  that appears on the screen.
* Stack memory is a map from byte addresses to 32-bit words; a `uint32_t *`
  advanced by `i` moves `4 * i` bytes, addresses wrap at `2 ^ 32`.
* A pointer into the command buffer is its offset from the start of the
  buffer, `none` is the null pointer.
-/

namespace Monitor

/-! ## Strings and `cprintf` -/

/-- The string terminator. -/
def NUL : Char := Char.ofNat 0

/-- The C string stored at the start of a list of bytes: everything before
the first NUL. -/
def cstr : List Char → List Char
  | [] => []
  | c :: cs => if c = NUL then [] else c :: cstr cs

/-- The C string stored in `mem` at offset `off`. -/
def cstrAt (mem : List Char) (off : Nat) : List Char :=
  cstr (mem.drop off)

/-- One variadic argument of `cprintf`. -/
inductive Arg where
  | str (s : List Char)
  | int (n : Int)
  | word (n : Nat)
  deriving DecidableEq, Repr

/-- A recorded `cprintf` call. -/
structure Call where
  fmt : String
  args : List Arg
  deriving DecidableEq, Repr

/-- Number of values of a 32-bit word. -/
def WORD : Nat := 2 ^ 32

/-- Modelled from the spec: the `%08x` conversion of the console formatter
(`lib/printfmt.c` is not part of the sources at hand): a 32-bit word as
exactly eight hexadecimal digits, most significant first, zero-padded. -/
def hex8 (w : Nat) : List Char :=
  [7, 6, 5, 4, 3, 2, 1, 0].map (fun i => Nat.digitChar (w % WORD / 16 ^ i % 16))

/-- Modelled from the spec: the console formatter behind `cprintf`
(`lib/printfmt.c` is not part of the sources at hand), for the conversions
the monitor uses: `%s`, `%d`, `%08x` and `%.*s` (a string cut to an explicit
length given as an `int` argument; a negative length does not cut). -/
def printfmt : List Char → List Arg → List Char
  | [], _ => []
  | '%' :: 's' :: fmt, Arg.str s :: args => cstr s ++ printfmt fmt args
  | '%' :: 'd' :: fmt, Arg.int n :: args => (toString n).toList ++ printfmt fmt args
  | '%' :: '0' :: '8' :: 'x' :: fmt, Arg.word w :: args => hex8 w ++ printfmt fmt args
  | '%' :: '.' :: '*' :: 's' :: fmt, Arg.int k :: Arg.str s :: args =>
    (if k < 0 then cstr s else (cstr s).take k.toNat) ++ printfmt fmt args
  | c :: fmt, args => c :: printfmt fmt args

/-- The console: every `cprintf` call made so far, oldest first. -/
abbrev Console := List Call

/-- The call `cprintf(fmt, args...)`: recorded at the end of the console. -/
def cprintf (fmt : String) (args : List Arg) (out : Console) : Console :=
  out ++ [⟨fmt, args⟩]

/-- The text a console shows. -/
def render (out : Console) : List Char :=
  out.flatMap (fun c => printfmt c.fmt.toList c.args)

/-! ## Machine state -/

/-- The result record of the symbol resolver (`struct Eipdebuginfo`), with
the fields `print_function_info` reads.  `eip_line` is passed to a `%s`
conversion there, so it is carried as text. -/
structure Eipdebuginfo where
  eip_file : List Char
  eip_line : List Char
  eip_fn_name : List Char
  eip_fn_namelen : Int
  eip_fn_narg : Int
  deriving DecidableEq, Repr

/-- The part of the machine the built-in commands read and never write:
the stack memory image (byte address to 32-bit word), the frame pointer
register, the symbol resolver `debuginfo_eip`, the linker symbols printed
by `kerninfo` and `KERNBASE` of `inc/memlayout.h`. -/
structure Machine where
  mem : Nat → Nat
  ebp : Nat
  debuginfo_eip : Nat → Eipdebuginfo
  _start : Nat
  entry : Nat
  etext : Nat
  edata : Nat
  end_ : Nat
  KERNBASE : Nat

/-- The word load `*(uint32_t *)a`. -/
def load (mem : Nat → Nat) (a : Nat) : Nat :=
  mem (a % WORD) % WORD

/-- The register read `read_ebp()`. -/
def read_ebp (m : Machine) : Nat :=
  m.ebp % WORD

/-- Size of `argv` in `runcmd`. -/
def MAXARGS : Nat := 16

/-- The array `char *argv[MAXARGS]`: sixteen pointers into the command
buffer. -/
abbrev Argv := { a : List (Option Nat) // a.length = MAXARGS }

/-- The assignment `argv[i] = v`. -/
def Argv.set (a : Argv) (i : Nat) (v : Option Nat) : Argv :=
  ⟨a.val.set i v, by rw [List.length_set]; exact a.property⟩

/-- The array read `argv[i]`; slots outside the array read as null. -/
def Argv.get (a : Argv) (i : Nat) : Option Nat :=
  (a.val.get? i).join

/-- The state the monitor changes: the console and the bytes of the command
buffer that `readline` handed out. -/
structure World where
  console : Console
  cmdbuf : List Char
  deriving DecidableEq, Repr

/-- A `struct Trapframe *`, passed through to the handlers untouched. -/
abbrev Trapframe := Nat

/-- The type of `func` in `struct Command`: from `argc`, `argv`, `tf` and
the state to the new state and the `int` returned; `none` when the call
does not return. -/
abbrev Handler := Nat → Argv → Trapframe → World → Option (World × Int)

/-- A row of the command table (`struct Command`). -/
structure Command where
  name : List Char
  desc : List Char
  func : Handler

/-! ## `help` and `kerninfo` -/

/-- The `name` and `desc` columns of the table `commands`.  The handlers
are attached in `commands` below: `mon_help` reads these two columns of the
very table it is a row of. -/
def commandText : List (List Char × List Char) :=
  [ ("help".toList, "Display this list of commands".toList),
    ("kerninfo".toList, "Display information about the kernel".toList),
    ("backtrace".toList, "Display information about the $esp & $ebp".toList) ]

/-- The loop `for (i = 0; i < NCOMMANDS; i++) cprintf("%s - %s\n", ...)`
over the rows from `i` on. -/
def helpLoop : List (List Char × List Char) → Console → Console
  | [], out => out
  | row :: rows, out =>
    helpLoop rows (cprintf "%s - %s\n" [Arg.str row.1, Arg.str row.2] out)

/-- The command `help`. -/
def mon_help : Handler := fun _argc _argv _tf w =>
  some ({ w with console := helpLoop commandText w.console }, 0)

/-- A 32-bit pattern read as an `int`. -/
def toInt32 (x : Nat) : Int :=
  if x % WORD < 2 ^ 31 then (x % WORD : Nat) else (x % WORD : Nat) - (WORD : Int)

/-- Modelled from the spec: the macro `ROUNDUP(a, n)` of `inc/types.h`
(not part of the sources at hand): `a` rounded up to a multiple of `n`,
computed on 32-bit unsigned values. -/
def ROUNDUP (a n : Nat) : Nat :=
  ((a + n - 1) % WORD) - ((a + n - 1) % WORD) % n

/-- The command `kerninfo`.  Differences of addresses are taken modulo
`2 ^ 32`. -/
def mon_kerninfo (m : Machine) : Handler := fun _argc _argv _tf w =>
  let sub := fun (a b : Nat) => (a % WORD + (WORD - b % WORD)) % WORD
  let out := cprintf "Special kernel symbols:\n" [] w.console
  let out := cprintf "  _start                  %08x (phys)\n" [Arg.word m._start] out
  let out := cprintf "  entry  %08x (virt)  %08x (phys)\n"
    [Arg.word m.entry, Arg.word (sub m.entry m.KERNBASE)] out
  let out := cprintf "  etext  %08x (virt)  %08x (phys)\n"
    [Arg.word m.etext, Arg.word (sub m.etext m.KERNBASE)] out
  let out := cprintf "  edata  %08x (virt)  %08x (phys)\n"
    [Arg.word m.edata, Arg.word (sub m.edata m.KERNBASE)] out
  let out := cprintf "  end    %08x (virt)  %08x (phys)\n"
    [Arg.word m.end_, Arg.word (sub m.end_ m.KERNBASE)] out
  let out := cprintf "Kernel executable memory footprint: %dKB\n"
    [Arg.int (Int.tdiv (toInt32 (ROUNDUP (sub m.end_ m.entry) 1024)) 1024)] out
  some ({ w with console := out }, 0)

/-! ## `backtrace` -/

/-- The loop `for (i = 1; i < 6; i++, p++) memoryTemp[i] = *p;` of
`read_six_words` with `n` iterations left: the array after the loop. -/
def fillWords (mem : Nat → Nat) : Nat → Nat → Nat → List Nat → List Nat
  | 0, _, _, memoryTemp => memoryTemp
  | n + 1, i, p, memoryTemp =>
    fillWords mem n (i + 1) (p + 4) (memoryTemp.set i (load mem p))

/-- The array `memoryTemp` of `read_six_words(p)` when it is printed:
zeroed, slot 0 set to the pointer itself, then slots 1 to 5 loaded from
the five words above `p`. -/
def memoryTemp (mem : Nat → Nat) (p : Nat) : List Nat :=
  fillWords mem 5 1 (p + 4) ((List.replicate 6 0).set 0 p)

/-- The format of the frame line. -/
def frameFmt : String := "  ebp %08x  eip %08x  args %08x %08x %08x %08x\n"

/-- The function `read_six_words(p)`: one `cprintf` of the six words. -/
def read_six_words (mem : Nat → Nat) (p : Nat) (out : Console) : Console :=
  cprintf frameFmt ((memoryTemp mem p).map Arg.word) out

/-- The function `print_function_info(addr)`: resolve the address, then two
`cprintf` calls. -/
def print_function_info (m : Machine) (addr : Nat) (out : Console) : Console :=
  let info := m.debuginfo_eip addr
  let out := cprintf "\t%s:%s: " [Arg.str info.eip_file, Arg.str info.eip_line] out
  cprintf "%.*s+%d\n"
    [Arg.int info.eip_fn_namelen, Arg.str info.eip_fn_name, Arg.int info.eip_fn_narg] out

/-- The loop `while (p != 0x0) { ... }` of `mon_backtrace`, run for at most
`fuel` iterations: the console and the pointer `p` reached.  The loop has
ended exactly when the pointer returned is 0. -/
def backtraceLoop (m : Machine) : Nat → Nat → Console → Console × Nat
  | 0, p, out => (out, p)
  | fuel + 1, p, out =>
    if p = 0 then (out, p)
    else
      backtraceLoop m fuel (load m.mem p)
        (print_function_info m (load m.mem (p + 4)) (read_six_words m.mem p out))

/-- The command `backtrace`, its loop given `fuel` iterations; `none` when
the loop has not ended by then. -/
def mon_backtrace (m : Machine) (fuel : Nat) : Handler := fun _argc _argv _tf w =>
  let r := backtraceLoop m fuel (read_ebp m) (cprintf "Stack backtrace:\n" [] w.console)
  if r.2 = 0 then some ({ w with console := r.1 }, 0) else none

/-- The table `commands`. -/
def commands (m : Machine) (fuel : Nat) : List Command :=
  List.zipWith (fun row func => ⟨row.1, row.2, func⟩) commandText
    [mon_help, mon_kerninfo m, mon_backtrace m fuel]

/-- The frame records on a console: the word arguments of each frame line
printed, oldest first. -/
def frameRecords (out : Console) : List (List Nat) :=
  (out.filter (fun c => c.fmt = frameFmt)).map
    (fun c => c.args.filterMap (fun a => match a with | Arg.word w => some w | _ => none))

/-- The frame chain from `p`: `bases` are the frame bases visited in order,
each non-null and each next one the word stored at the one before, and
`last` is the word stored at the final base (or `p` itself when `bases` is
empty). -/
def isChain (mem : Nat → Nat) : Nat → List Nat → Nat → Bool
  | p, [], last => p == last
  | p, b :: bases, last => p != 0 && b == p && isChain mem (load mem p) bases last

/-! ## The command interpreter -/

/-- The string `WHITESPACE`. -/
def WHITESPACE : List Char := "\t\r\n ".toList

/-- Modelled from the spec: `strchr(s, c)` of `lib/string.c` (not part of
the sources at hand), as the test `strchr(s, c) != 0`: whether `c` occurs
in the C string `s`. -/
def strchr : List Char → Char → Bool
  | [], _ => false
  | x :: s, c => if x = NUL then false else if x = c then true else strchr s c

/-- Modelled from the spec: `strcmp(p, q)` of `lib/string.c` (not part of
the sources at hand), on the bytes from each pointer on: walk both strings
while they agree and `p` has not ended, return the difference of the two
bytes reached. -/
def strcmp : List Char → List Char → Int
  | [], q => (NUL.toNat : Int) - ((q.headD NUL).toNat : Int)
  | a :: p, q =>
    if a ≠ NUL ∧ a = q.headD NUL then strcmp p q.tail
    else (a.toNat : Int) - ((q.headD NUL).toNat : Int)

/-- The local state of the parse in `runcmd`.  The pointer `buf` splits the
command buffer into the bytes below it (`done`) and the bytes from it on
(`rest`), so `buf` is at offset `done.length` and `*buf` is the head of
`rest`. -/
structure Parse where
  done : List Char
  rest : List Char
  argc : Nat
  argv : Argv
  deriving DecidableEq, Repr

/-- The buffer of a parse state as one list of bytes. -/
def Parse.buffer (st : Parse) : List Char := st.done ++ st.rest

/-- The loop `while (*buf && strchr(WHITESPACE, *buf)) *buf++ = 0;`. -/
def gobble : List Char → List Char → List Char × List Char
  | done, [] => (done, [])
  | done, c :: rest =>
    if c ≠ NUL ∧ strchr WHITESPACE c = true then gobble (done ++ [NUL]) rest
    else (done, c :: rest)

/-- The loop `while (*buf && !strchr(WHITESPACE, *buf)) buf++;`. -/
def scanArg : List Char → List Char → List Char × List Char
  | done, [] => (done, [])
  | done, c :: rest =>
    if c ≠ NUL ∧ ¬ strchr WHITESPACE c = true then scanArg (done ++ [c]) rest
    else (done, c :: rest)

/-- How one pass through the body of `while (1)` in `runcmd` ends: at the
bottom of the body (`again`), at the `break` (`parsed`), or at the `return`
behind the "Too many arguments" diagnostic (`tooMany`). -/
inductive Step where
  | again (st : Parse)
  | parsed (st : Parse)
  | tooMany (st : Parse)
  deriving DecidableEq, Repr

/-- Whether the parse ended at the "Too many arguments" return. -/
def Step.rejected : Step → Bool
  | Step.tooMany _ => true
  | _ => false

/-- One pass through the body of `while (1)` in `runcmd`. -/
def parseStep (st : Parse) : Step :=
  let g := gobble st.done st.rest
  if g.2.headD NUL = NUL then
    Step.parsed { st with done := g.1, rest := g.2 }
  else if st.argc = MAXARGS - 1 then
    Step.tooMany { st with done := g.1, rest := g.2 }
  else
    let s := scanArg g.1 g.2
    Step.again
      { done := s.1, rest := s.2, argc := st.argc + 1,
        argv := st.argv.set st.argc (some g.1.length) }

/-- The loop `while (1)` of `runcmd`, run for at most `fuel` passes; the
result is `again` when the loop has not ended by then. -/
def parseLoop : Nat → Parse → Step
  | 0, st => Step.again st
  | fuel + 1, st =>
    match parseStep st with
    | Step.again st1 => parseLoop fuel st1
    | r => r

/-- The loop `for (i = 0; i < NCOMMANDS; i++)` of `runcmd` over the rows
from `i` on, and the "Unknown command" diagnostic behind it.  A null
`argv[0]` cannot be compared or printed: no result. -/
def dispatch : List Command → Nat → Argv → Trapframe → World → Option (World × Int)
  | [], _, argv, _, w =>
    match argv.get 0 with
    | none => none
    | some a =>
      let out := cprintf "Unknown command '%s'\n" [Arg.str (w.cmdbuf.drop a)] w.console
      some ({ w with console := out }, 0)
  | c :: cs, argc, argv, tf, w =>
    match argv.get 0 with
    | none => none
    | some a =>
      if strcmp (w.cmdbuf.drop a) c.name = 0 then c.func argc argv tf w
      else dispatch cs argc argv tf w

/-- The parse of `runcmd` from its start, `argc = 0; argv[argc] = 0;`, to
the end of `while (1)`; `argv0` is the indeterminate initial content of the
local array `argv`, `buf` the bytes of the command buffer.  Every pass of
the loop that does not end it moves the pointer forward, so
`buf.length + 1` passes are allowed. -/
def parseLine (argv0 : Argv) (buf : List Char) : Step :=
  parseLoop (buf.length + 1) { done := [], rest := buf, argc := 0, argv := argv0.set 0 none }

/-- The function `runcmd(buf, tf)` over the command table `cmds`; `argv0`
is the indeterminate initial content of the local array `argv`, `w.cmdbuf`
the bytes `buf` points to. -/
def runcmd (cmds : List Command) (argv0 : Argv) (tf : Trapframe) (w : World) :
    Option (World × Int) :=
  match parseLine argv0 w.cmdbuf with
  | Step.again _ => none
  | Step.tooMany st =>
    some ({ console := cprintf "Too many arguments (max %d)\n" [Arg.int MAXARGS] w.console,
            cmdbuf := st.buffer }, 0)
  | Step.parsed st =>
    if st.argc = 0 then some ({ w with cmdbuf := st.buffer }, 0)
    else dispatch cmds st.argc (st.argv.set st.argc none) tf { w with cmdbuf := st.buffer }

/-! ## Specification vocabulary for the tokenizer -/

/-- The whitespace set of the specification: tab, carriage return, newline,
space. -/
def isWhite (c : Char) : Bool :=
  c = '\t' || c = '\r' || c = '\n' || c = ' '

/-- The characters of an argument: neither NUL nor whitespace. -/
def isArgChar (c : Char) : Bool := c != NUL && !isWhite c

/-- The maximal runs of non-whitespace characters of a line, left to
right. -/
def tokens (line : List Char) : List (List Char) :=
  (line.splitOnP isWhite).filter (fun t => t ≠ [])

/-- The string `argv[i]` points to in the buffer (a null slot reads as the
empty string). -/
def argString (buffer : List Char) (argv : Argv) (i : Nat) : List Char :=
  match argv.get i with
  | some a => cstrAt buffer a
  | none => []

/-- The argument strings `argv[0]`, ..., `argv[argc - 1]` read from the
buffer. -/
def argStrings (buffer : List Char) (argv : Argv) (argc : Nat) : List (List Char) :=
  (List.range argc).map (argString buffer argv)

/-- The command buffer after the split: every whitespace character before
the terminator replaced by NUL. -/
def blank : List Char → List Char
  | [] => []
  | c :: cs => if c = NUL then c :: cs else if isWhite c = true then NUL :: blank cs
    else c :: blank cs

/-! ## The command loop -/

/-- The results of the calls of `readline` still to come, in order: a line,
or `none` for a null return.  Once the list is used up the input is
exhausted and every further call returns null. -/
abbrev Input := List (Option (List Char))

/-- Modelled from the spec: `readline(prompt)` of `lib/readline.c` (not
part of the sources at hand): print the prompt, then hand out the next line
of input, or null at the end of the input.  The result is the line, the
input left and the console. -/
def readline (prompt : List Char) (input : Input) (out : Console) :
    Option (List Char) × Input × Console :=
  (input.head?.join, input.tail, cprintf "%s" [Arg.str prompt] out)

/-- Where `monitor` stands: at the top of `while (1)` (`looping`), behind
the `break` and so back at its caller (`returned`), or inside a handler
that does not return (`hung`). -/
inductive Monitoring where
  | looping (w : World) (input : Input)
  | returned (w : World) (input : Input)
  | hung
  deriving DecidableEq, Repr

/-- The loop `while (1)` of `monitor`, run for at most `fuel` passes.
`garbage k` is the indeterminate initial content of `argv` in the k-th call
of `runcmd` from here on. -/
def monitorLoop (cmds : List Command) (tf : Trapframe) :
    Nat → (Nat → Argv) → Input → World → Monitoring
  | 0, _, input, w => Monitoring.looping w input
  | fuel + 1, garbage, input, w =>
    let r := readline "K> ".toList input w.console
    match r.1 with
    | none =>
      monitorLoop cmds tf fuel (fun k => garbage (k + 1)) r.2.1 { w with console := r.2.2 }
    | some buf =>
      match runcmd cmds (garbage 0) tf ⟨r.2.2, buf⟩ with
      | none => Monitoring.hung
      | some (w1, code) =>
        if code < 0 then Monitoring.returned w1 r.2.1
        else monitorLoop cmds tf fuel (fun k => garbage (k + 1)) r.2.1 w1

/-- The function `monitor(tf)` over the command table `cmds`, its loop
given `fuel` passes. -/
def monitor (cmds : List Command) (tf : Trapframe) (fuel : Nat) (garbage : Nat → Argv)
    (input : Input) (w : World) : Monitoring :=
  let out := cprintf "Welcome to the JOS kernel monitor!\n" [] w.console
  let out := cprintf "Type 'help' for a list of commands.\n" [] out
  monitorLoop cmds tf fuel garbage input { w with console := out }

/-- The state after the monitor has prompted for, read and dispatched each
of `lines` in turn, as long as every dispatch returned, and returned zero
or a positive value. -/
def afterLines (cmds : List Command) (tf : Trapframe) :
    (Nat → Argv) → List (List Char) → World → Option World
  | _, [], w => some w
  | garbage, line :: lines, w =>
    match runcmd cmds (garbage 0) tf ⟨cprintf "%s" [Arg.str "K> ".toList] w.console, line⟩ with
    | none => none
    | some (w1, code) =>
      if code < 0 then none else afterLines cmds tf (fun k => garbage (k + 1)) lines w1

/-! ## The writes into `argv` -/

/-- The parse state a pass ended in. -/
def Step.state : Step → Parse
  | Step.again st => st
  | Step.parsed st => st
  | Step.tooMany st => st

/-- The indices of the stores `argv[argc++] = buf` made by the first `fuel`
passes of the parse loop from `st`, in order. -/
def storeIndices : Nat → Parse → List Nat
  | 0, _ => []
  | fuel + 1, st =>
    match parseStep st with
    | Step.again st1 => st.argc :: storeIndices fuel st1
    | _ => []

/-- The indices at which `runcmd` writes into `argv`, in order: the store
`argv[argc] = 0` in front of the loop, the store `argv[argc++] = buf` of
each pass that gets to it, and the store `argv[argc] = 0` behind the loop
when the parse leaves the loop by its `break`. -/
def argvWrites (argv0 : Argv) (buf : List Char) : List Nat :=
  0 :: storeIndices (buf.length + 1)
      { done := [], rest := buf, argc := 0, argv := argv0.set 0 none } ++
    match parseLine argv0 buf with
    | Step.parsed fin => [fin.argc]
    | _ => []

/-! ## Specification vocabulary for the output of `backtrace` -/

/-- The value of a hexadecimal digit (0 for any other character). -/
def hexDigitValue (c : Char) : Nat :=
  if '0' ≤ c ∧ c ≤ '9' then c.toNat - '0'.toNat
  else if 'a' ≤ c ∧ c ≤ 'f' then c.toNat - 'a'.toNat + 10
  else 0

/-- Whether a character is a hexadecimal digit, `0`-`9` or `a`-`f`. -/
def isHexDigit (c : Char) : Bool :=
  ('0' ≤ c && c ≤ '9') || ('a' ≤ c && c ≤ 'f')

/-- The number a string of hexadecimal digits denotes, most significant
digit first. -/
def hexValue (digits : List Char) : Nat :=
  digits.foldl (fun acc c => 16 * acc + hexDigitValue c) 0

/-- The frame line as the specification words it,
"ebp <hex8> eip <hex8> args <hex8> <hex8> <hex8> <hex8>", for the frame at
base `b`. -/
def specFrameLine (mem : Nat → Nat) (b : Nat) : List Char :=
  "ebp ".toList ++ hex8 b ++ " eip ".toList ++ hex8 (load mem (b + 4)) ++
    " args ".toList ++ hex8 (load mem (b + 8)) ++ " ".toList ++ hex8 (load mem (b + 12)) ++
    " ".toList ++ hex8 (load mem (b + 16)) ++ " ".toList ++ hex8 (load mem (b + 20)) ++
    "\n".toList

/-- The function name cut to its explicit length: its first
`eip_fn_namelen` characters.  A negative length cuts nothing, as the
`%.*s` conversion has it. -/
def cutName (info : Eipdebuginfo) : List Char :=
  if info.eip_fn_namelen < 0 then cstr info.eip_fn_name
  else (cstr info.eip_fn_name).take info.eip_fn_namelen.toNat

/-- The symbol line as the specification words it,
"<file>:<line>: <function-name>+<count>". -/
def specSymbolLine (info : Eipdebuginfo) : List Char :=
  cstr info.eip_file ++ ":".toList ++ cstr info.eip_line ++ ": ".toList ++ cutName info ++
    "+".toList ++ (toString info.eip_fn_narg).toList ++ "\n".toList

/-- The frame line as `read_six_words` formats it: two blanks in front of
`ebp`, `eip` and `args`. -/
def frameLine (mem : Nat → Nat) (b : Nat) : List Char :=
  "  ebp ".toList ++ hex8 b ++ "  eip ".toList ++ hex8 (load mem (b + 4)) ++
    "  args ".toList ++ hex8 (load mem (b + 8)) ++ " ".toList ++ hex8 (load mem (b + 12)) ++
    " ".toList ++ hex8 (load mem (b + 16)) ++ " ".toList ++ hex8 (load mem (b + 20)) ++
    "\n".toList

/-- The symbol line as `print_function_info` formats it: a tab in front. -/
def symbolLine (info : Eipdebuginfo) : List Char :=
  "\t".toList ++ cstr info.eip_file ++ ":".toList ++ cstr info.eip_line ++ ": ".toList ++
    cutName info ++ "+".toList ++ (toString info.eip_fn_narg).toList ++ "\n".toList

/-- The text of a backtrace over the frame bases `bases` as the
specification words it: for each frame its frame line, then its symbol
line. -/
def specBacktrace (m : Machine) (bases : List Nat) : List Char :=
  bases.flatMap (fun b =>
    specFrameLine m.mem b ++ specSymbolLine (m.debuginfo_eip (load m.mem (b + 4))))

/-- The text of a backtrace over the frame bases `bases` in the format of
`read_six_words` and `print_function_info`: for each frame its frame line,
then the symbol line of its return address. -/
def backtraceText (m : Machine) (bases : List Nat) : List Char :=
  bases.flatMap (fun b =>
    frameLine m.mem b ++ symbolLine (m.debuginfo_eip (load m.mem (b + 4))))

/-! ## The calls of the symbol resolver -/

/-- The function `print_function_info(addr)` with its call of the symbol
resolver recorded: the address handed to `debuginfo_eip` is added to the
end of `log`; the console is the one `print_function_info` gives. -/
def print_function_info_logged (m : Machine) (addr : Nat) (out : Console) (log : List Nat) :
    Console × List Nat :=
  let info := m.debuginfo_eip addr
  let log := log ++ [addr]
  let out := cprintf "\t%s:%s: " [Arg.str info.eip_file, Arg.str info.eip_line] out
  (cprintf "%.*s+%d\n"
    [Arg.int info.eip_fn_namelen, Arg.str info.eip_fn_name, Arg.int info.eip_fn_narg] out, log)

/-- The loop `while (p != 0x0) { ... }` of `mon_backtrace` with the calls
of the symbol resolver recorded, run for at most `fuel` passes: the
console, the addresses resolved so far, oldest first, and the pointer `p`
reached. -/
def backtraceLoopLogged (m : Machine) : Nat → Nat → Console → List Nat →
    Console × List Nat × Nat
  | 0, p, out, log => (out, log, p)
  | fuel + 1, p, out, log =>
    if p = 0 then (out, log, p)
    else
      let r := print_function_info_logged m (load m.mem (p + 4))
        (read_six_words m.mem p out) log
      backtraceLoopLogged m fuel (load m.mem p) r.1 r.2

/-! ## Concrete inputs -/

/-- What one pass of the backtrace loop at frame base `b` adds to the
console: the frame line and the two calls of `print_function_info`. -/
def frameOutput (m : Machine) (b : Nat) : Console :=
  print_function_info m (load m.mem (b + 4)) (read_six_words m.mem b [])

/-- A symbol resolver that knows nothing. -/
def noDebuginfo : Nat → Eipdebuginfo :=
  fun _ => ⟨"<unknown>".toList, "0".toList, "<unknown>".toList, 9, 0⟩

/-- A machine with two stack frames, at 0x100 and 0x200; the outer frame
stores the sentinel 0. -/
def twoFrames : Machine :=
  { mem := fun a =>
      if a = 0x100 then 0x200 else if a = 0x104 then 0xf0100068
      else if a = 0x108 then 1 else if a = 0x10c then 2
      else if a = 0x110 then 3 else if a = 0x114 then 4
      else if a = 0x204 then 0xf010003e else 0
    ebp := 0x100
    debuginfo_eip := noDebuginfo
    _start := 0x10000c, entry := 0xf010000c, etext := 0xf0101a75
    edata := 0xf0112300, end_ := 0xf0112960, KERNBASE := 0xf0000000 }

/-- A machine whose frame at 0x100 stores its own base as the next frame
base. -/
def selfLoop : Machine :=
  { twoFrames with mem := fun a => if a = 0x100 then 0x100 else 0 }

/-- An `argv` array in which every slot holds a stale pointer. -/
def staleArgv : Argv := ⟨List.replicate 16 (some 3), rfl⟩

/-- A handler that asks the monitor to exit: it returns -1. -/
def mon_exit : Handler := fun _argc _argv _tf w => some (w, -1)

/-- A command table with one more row than the built-in one, `exit`. -/
def withExit : List Command :=
  commands twoFrames 2 ++ [⟨"exit".toList, "Leave the monitor".toList, mon_exit⟩]

/-- The state of a monitor started on an empty console after the lines
`help` and `nop` (no such command): the two welcome lines, a prompt, the
three lines of `help`, a prompt and the diagnostic for `nop`. -/
def afterHelpNop : World :=
  ⟨helpLoop commandText
      [⟨"Welcome to the JOS kernel monitor!\n", []⟩,
        ⟨"Type 'help' for a list of commands.\n", []⟩,
        ⟨"%s", [Arg.str "K> ".toList]⟩] ++
    [⟨"%s", [Arg.str "K> ".toList]⟩, ⟨"Unknown command '%s'\n", [Arg.str "nop".toList]⟩],
    "nop".toList⟩

/-- The state after the prompt and the line `exit` following
`afterHelpNop`. -/
def afterExit : World :=
  ⟨afterHelpNop.console ++ [⟨"%s", [Arg.str "K> ".toList]⟩], "exit".toList⟩

/-! ## The frame walk -/

theorem frameOutput_eq (m : Machine) (b : Nat) (out : Console) :
    print_function_info m (load m.mem (b + 4)) (read_six_words m.mem b out)
      = out ++ frameOutput m b := by
  simp [frameOutput, print_function_info, read_six_words, cprintf]

theorem backtraceLoop_zero (m : Machine) (fuel : Nat) (out : Console) :
    backtraceLoop m fuel 0 out = (out, 0) := by
  cases fuel <;> simp [backtraceLoop]

theorem backtraceLoop_succ (m : Machine) (fuel p : Nat) (out : Console) (hp : p ≠ 0) :
    backtraceLoop m (fuel + 1) p out
      = backtraceLoop m fuel (load m.mem p) (out ++ frameOutput m p) := by
  rw [backtraceLoop, if_neg hp, frameOutput_eq]

/-- Along a chain the loop prints the frames of the bases it passes: after
`fuel` passes it has either consumed the whole chain or stands at the base
number `fuel`. -/
theorem backtraceLoop_chain (m : Machine) (last : Nat) :
    ∀ (bases : List Nat) (p fuel : Nat) (out : Console),
      isChain m.mem p bases last = true →
      backtraceLoop m fuel p out =
        if fuel < bases.length then
          (out ++ (bases.take fuel).flatMap (frameOutput m), bases.getD fuel 0)
        else
          backtraceLoop m (fuel - bases.length) last (out ++ bases.flatMap (frameOutput m))
  | [], p, fuel, out, h => by
    simp only [isChain, beq_iff_eq] at h
    simp [h]
  | b :: bases, p, 0, out, h => by
    simp only [isChain, Bool.and_eq_true, bne_iff_ne, beq_iff_eq] at h
    simp [backtraceLoop, h.1.2]
  | b :: bases, p, fuel + 1, out, h => by
    simp only [isChain, Bool.and_eq_true, bne_iff_ne, beq_iff_eq] at h
    obtain ⟨⟨hp, hb⟩, hrest⟩ := h
    subst hb
    rw [backtraceLoop_succ m fuel b out hp,
      backtraceLoop_chain m last bases (load m.mem b) fuel _ hrest]
    simp only [List.length_cons, Nat.add_lt_add_iff_right, List.take_succ_cons,
      List.flatMap_cons, List.append_assoc, List.getD_cons_succ, Nat.add_sub_add_right]

theorem isChain_ne_zero (mem : Nat → Nat) (last : Nat) :
    ∀ (bases : List Nat) (p : Nat), isChain mem p bases last = true → ∀ b ∈ bases, b ≠ 0
  | [], _, _, b, hb => by simp at hb
  | a :: bases, p, h, b, hb => by
    simp only [isChain, Bool.and_eq_true, bne_iff_ne, beq_iff_eq] at h
    rcases List.mem_cons.1 hb with rfl | hb
    · rw [h.1.2]; exact h.1.1
    · exact isChain_ne_zero mem last bases _ h.2 b hb

theorem memoryTemp_eq (mem : Nat → Nat) (b : Nat) :
    memoryTemp mem b =
      [b, load mem (b + 4), load mem (b + 8), load mem (b + 12), load mem (b + 16),
        load mem (b + 20)] := by
  simp [memoryTemp, fillWords, List.replicate]

theorem frameRecords_append (a b : Console) :
    frameRecords (a ++ b) = frameRecords a ++ frameRecords b := by
  simp [frameRecords]

theorem frameRecords_frameOutput (m : Machine) (b : Nat) :
    frameRecords (frameOutput m b) = [memoryTemp m.mem b] := by
  have h1 : ("\t%s:%s: " = frameFmt) = False := by simp; decide
  have h2 : ("%.*s+%d\n" = frameFmt) = False := by simp; decide
  simp [frameRecords, frameOutput, print_function_info, read_six_words, cprintf,
    List.filter_cons, h1, h2, List.filterMap_map, Function.comp_def]

theorem frameRecords_flatMap (m : Machine) :
    ∀ bases : List Nat,
      frameRecords (bases.flatMap (frameOutput m)) = bases.map (memoryTemp m.mem)
  | [] => by simp [frameRecords]
  | b :: bases => by
    rw [List.flatMap_cons, frameRecords_append, frameRecords_frameOutput,
      frameRecords_flatMap m bases]
    rfl

/-- C1: when the starting frame base `p` begins a chain of `N` frame bases
(each next base being the word stored at the one before) that ends at the
sentinel 0, the walk of `mon_backtrace` ends within `N` passes and prints
exactly `N` frames; the k-th frame printed carries the k-th base of the
chain, and its return address is the word stored one word above that base.
A starting base of 0 prints no frame. -/
theorem backtrace_emits_chain (m : Machine) (p : Nat) (bases : List Nat) (fuel : Nat)
    (out : Console) (hchain : isChain m.mem p bases 0 = true) (hfuel : bases.length ≤ fuel) :
    ∃ new, backtraceLoop m fuel p out = (out ++ new, 0) ∧
      (frameRecords new).length = bases.length ∧
      (frameRecords new).map (fun r => r[0]?) = bases.map some ∧
      (frameRecords new).map (fun r => r[1]?)
        = bases.map (fun b => some (load m.mem (b + 4))) ∧
      (p = 0 → new = []) := by
  refine ⟨bases.flatMap (frameOutput m), ?_, ?_, ?_, ?_, ?_⟩
  · rw [backtraceLoop_chain m 0 bases p fuel out hchain, if_neg (Nat.not_lt.2 hfuel),
      backtraceLoop_zero]
  · rw [frameRecords_flatMap, List.length_map]
  · rw [frameRecords_flatMap, List.map_map]
    exact List.map_congr_left (fun b _ => by simp [memoryTemp_eq])
  · rw [frameRecords_flatMap, List.map_map]
    exact List.map_congr_left (fun b _ => by simp [memoryTemp_eq])
  · intro hp
    cases bases with
    | nil => rfl
    | cons b bs =>
      simp only [isChain, Bool.and_eq_true, bne_iff_ne] at hchain
      exact absurd hp hchain.1.1

theorem backtrace_emits_chain_witness :
    ∃ new, backtraceLoop twoFrames 2 0x100 [] = ([] ++ new, 0) ∧
      (frameRecords new).length = [0x100, 0x200].length ∧
      (frameRecords new).map (fun r => r[0]?) = [0x100, 0x200].map some ∧
      (frameRecords new).map (fun r => r[1]?)
        = [0x100, 0x200].map (fun b => some (load twoFrames.mem (b + 4))) ∧
      (0x100 = 0 → new = []) :=
  backtrace_emits_chain twoFrames 0x100 [0x100, 0x200] 2 [] (by decide) (by decide)

/-- C2: `read_six_words` at frame base `b` prints `b` itself followed by
the words stored at `b + 1`, ..., `b + 5` words, so along any stretch of a
frame chain the frames printed by the walk carry, in order, the base `b`
(the pointer, not a word loaded from memory), the return address, and as
the four argument words exactly the words at `b + 2`, `b + 3`, `b + 4` and
`b + 5` words. -/
theorem frame_words_of_base (m : Machine) (p : Nat) (bases : List Nat) (last : Nat)
    (out : Console) (hchain : isChain m.mem p bases last = true) :
    (∀ b ∈ bases, read_six_words m.mem b out = out ++
        [⟨frameFmt, [Arg.word b, Arg.word (load m.mem (b + 4)), Arg.word (load m.mem (b + 8)),
          Arg.word (load m.mem (b + 12)), Arg.word (load m.mem (b + 16)),
          Arg.word (load m.mem (b + 20))]⟩]) ∧
    frameRecords (backtraceLoop m bases.length p []).1 =
      bases.map (fun b => [b, load m.mem (b + 4), load m.mem (b + 8), load m.mem (b + 12),
        load m.mem (b + 16), load m.mem (b + 20)]) := by
  constructor
  · intro b _
    simp [read_six_words, cprintf, memoryTemp_eq]
  · rw [backtraceLoop_chain m last bases p bases.length [] hchain, if_neg (Nat.lt_irrefl _),
      Nat.sub_self]
    simp only [backtraceLoop, List.nil_append, frameRecords_flatMap]
    exact List.map_congr_left (fun b _ => memoryTemp_eq m.mem b)

theorem frame_words_of_base_witness :
    (∀ b ∈ [0x100, 0x200], read_six_words twoFrames.mem b [] = [] ++
        [⟨frameFmt, [Arg.word b, Arg.word (load twoFrames.mem (b + 4)),
          Arg.word (load twoFrames.mem (b + 8)), Arg.word (load twoFrames.mem (b + 12)),
          Arg.word (load twoFrames.mem (b + 16)), Arg.word (load twoFrames.mem (b + 20))]⟩]) ∧
    frameRecords (backtraceLoop twoFrames [0x100, 0x200].length 0x100 []).1 =
      [0x100, 0x200].map (fun b => [b, load twoFrames.mem (b + 4), load twoFrames.mem (b + 8),
        load twoFrames.mem (b + 12), load twoFrames.mem (b + 16), load twoFrames.mem (b + 20)]) :=
  frame_words_of_base twoFrames 0x100 [0x100, 0x200] 0 [] (by decide)

theorem backtraceLoop_self (m : Machine) (b : Nat) (hb : b ≠ 0) (hself : load m.mem b = b) :
    ∀ (fuel : Nat) (out : Console),
      backtraceLoop m fuel b out
        = (out ++ (List.replicate fuel b).flatMap (frameOutput m), b)
  | 0, out => by simp [backtraceLoop]
  | fuel + 1, out => by
    rw [backtraceLoop_succ m fuel b out hb, hself, backtraceLoop_self m b hb hself fuel]
    simp [List.replicate_succ]

/-- C3, as the code behaves: on the machine `selfLoop`, whose frame at
0x100 stores its own base as next frame base, the walk started there has
not ended after any number of passes, and `mon_backtrace` returns for no
iteration bound. -/
theorem backtrace_self_loop_runs_forever :
    ¬ ∃ fuel : Nat, (backtraceLoop selfLoop fuel 0x100 []).2 = 0 ∨
      (mon_backtrace { selfLoop with ebp := 0x100 } fuel 1 staleArgv 0 ⟨[], []⟩).isSome = true := by
  rintro ⟨fuel, h | h⟩
  · rw [backtraceLoop_self selfLoop 0x100 (by decide) (by decide)] at h
    simp at h
  · have hr : read_ebp { selfLoop with ebp := 0x100 } = 0x100 := by decide
    simp only [mon_backtrace, hr] at h
    rw [backtraceLoop_self _ 0x100 (by decide) (by decide)] at h
    simp at h

/-- C3, amended: when a frame base `b` reachable from the starting base
along the chain stores its own base as next frame base, the walk has no
iteration bound and reports no fault: after any number `fuel` of passes it
is still running (its pointer is not the sentinel) and has printed one
frame for each pass, those of the bases leading to `b` followed by the
frame at `b` over and over, and nothing else. -/
theorem backtrace_cycle_unbounded (m : Machine) (p : Nat) (pre : List Nat) (b : Nat)
    (fuel : Nat) (out : Console) (hreach : isChain m.mem p pre b = true) (hb : b ≠ 0)
    (hself : load m.mem b = b) :
    (backtraceLoop m fuel p out).2 ≠ 0 ∧
    (backtraceLoop m fuel p out).1
      = out ++ ((pre ++ List.replicate fuel b).take fuel).flatMap (frameOutput m) := by
  rw [backtraceLoop_chain m b pre p fuel out hreach]
  by_cases hlt : fuel < pre.length
  · rw [if_pos hlt]
    constructor
    · have hmem : pre.getD fuel 0 ∈ pre := by
        rw [List.getD_eq_getElem _ _ hlt]
        exact List.getElem_mem hlt
      exact isChain_ne_zero m.mem b pre p hreach _ hmem
    · rw [List.take_append_of_le_length (Nat.le_of_lt hlt)]
  · rw [if_neg hlt, backtraceLoop_self m b hb hself]
    refine ⟨hb, ?_⟩
    have hle : pre.length ≤ fuel := Nat.not_lt.1 hlt
    have htake : (pre ++ List.replicate fuel b).take fuel
        = pre ++ List.replicate (fuel - pre.length) b := by
      rw [List.take_append_eq_append_take, List.take_of_length_le hle, List.take_replicate,
        Nat.min_eq_left (Nat.sub_le _ _)]
    simp [htake, List.flatMap_append]

theorem backtrace_cycle_unbounded_witness :
    (backtraceLoop selfLoop 5 0x100 []).2 ≠ 0 ∧
    (backtraceLoop selfLoop 5 0x100 []).1
      = [] ++ (([] ++ List.replicate 5 0x100).take 5).flatMap (frameOutput selfLoop) :=
  backtrace_cycle_unbounded selfLoop 0x100 [] 0x100 5 [] (by decide) (by decide) (by decide)

/-! ## The tokenizer -/

theorem strchr_WHITESPACE (c : Char) : strchr WHITESPACE c = isWhite c := by
  show strchr ['\t', '\r', '\n', ' '] c = isWhite c
  have h1 : ('\t' = NUL) = False := by simp; decide
  have h2 : ('\r' = NUL) = False := by simp; decide
  have h3 : ('\n' = NUL) = False := by simp; decide
  have h4 : (' ' = NUL) = False := by simp; decide
  simp only [strchr, h1, h2, h3, h4, if_false, isWhite]
  by_cases e1 : c = '\t'
  · simp [e1]
  by_cases e2 : c = '\r'
  · simp [e2]
  by_cases e3 : c = '\n'
  · simp [e3]
  by_cases e4 : c = ' '
  · simp [e4]
  simp [e1, e2, e3, e4, Ne.symm e1, Ne.symm e2, Ne.symm e3, Ne.symm e4]

theorem isWhite_NUL : isWhite NUL = false := by decide

theorem ne_NUL_of_isWhite {c : Char} (h : isWhite c = true) : c ≠ NUL := by
  rintro rfl
  rw [isWhite_NUL] at h
  exact Bool.false_ne_true h

/-- The characters `gobble` overwrites. -/
theorem gobble_eq (done rest : List Char) :
    gobble done rest =
      (done ++ List.replicate (rest.takeWhile isWhite).length NUL, rest.dropWhile isWhite) := by
  induction rest generalizing done with
  | nil => simp [gobble]
  | cons c rest ih =>
    rw [gobble, strchr_WHITESPACE]
    by_cases hc : isWhite c = true
    · rw [if_pos ⟨ne_NUL_of_isWhite hc, hc⟩, ih]
      simp [List.takeWhile_cons, List.dropWhile_cons, hc, List.replicate_succ]
    · rw [if_neg (fun h => hc h.2)]
      simp [List.takeWhile_cons, List.dropWhile_cons, hc]

theorem scanArg_eq (done rest : List Char) :
    scanArg done rest = (done ++ rest.takeWhile isArgChar, rest.dropWhile isArgChar) := by
  induction rest generalizing done with
  | nil => simp [scanArg]
  | cons c rest ih =>
    rw [scanArg, strchr_WHITESPACE]
    by_cases hc : isArgChar c = true
    · have hc2 : c ≠ NUL ∧ ¬ isWhite c = true := by
        simpa [isArgChar] using hc
      rw [if_pos hc2, ih]
      simp [List.takeWhile_cons, List.dropWhile_cons, hc]
    · have hc2 : ¬ (c ≠ NUL ∧ ¬ isWhite c = true) := by
        simpa [isArgChar] using hc
      rw [if_neg hc2]
      simp [List.takeWhile_cons, List.dropWhile_cons, hc]

theorem isArgChar_iff (c : Char) : isArgChar c = true ↔ c ≠ NUL ∧ isWhite c = false := by
  simp [isArgChar]

theorem isArgChar_NUL : isArgChar NUL = false := by decide

theorem tokens_nil : tokens [] = [] := by
  simp [tokens]

theorem tokens_cons_white (c : Char) (l : List Char) (hc : isWhite c = true) :
    tokens (c :: l) = tokens l := by
  simp [tokens, List.splitOnP_cons, hc]

theorem cstr_cons_ne (c : Char) (l : List Char) (hc : c ≠ NUL) :
    cstr (c :: l) = c :: cstr l := by
  simp [cstr, hc]

theorem cstr_of_head_NUL (l : List Char) (h : l.headD NUL = NUL) : cstr l = [] := by
  cases l with
  | nil => rfl
  | cons c l =>
    simp only [List.headD_cons] at h
    simp [cstr, h]

theorem cstr_arg_append (tok r : List Char) (htok : ∀ c ∈ tok, isArgChar c = true) :
    cstr (tok ++ r) = tok ++ cstr r := by
  induction tok with
  | nil => rfl
  | cons c tok ih =>
    have hc := (isArgChar_iff c).1 (htok c (List.mem_cons_self _ _))
    rw [List.cons_append, cstr_cons_ne _ _ hc.1, ih (fun x hx => htok x (List.mem_cons_of_mem _ hx)),
      List.cons_append]

theorem tokens_dropWhile_white (rest : List Char) :
    tokens (cstr (rest.dropWhile isWhite)) = tokens (cstr rest) := by
  induction rest with
  | nil => rfl
  | cons c rest ih =>
    by_cases hc : isWhite c = true
    · rw [List.dropWhile_cons_of_pos hc, ih, cstr_cons_ne _ _ (ne_NUL_of_isWhite hc),
        tokens_cons_white _ _ hc]
    · rw [List.dropWhile_cons_of_neg hc]

theorem blank_of_stop (r : List Char) (h : r.headD NUL = NUL) : blank r = r := by
  cases r with
  | nil => rfl
  | cons c r =>
    simp only [List.headD_cons] at h
    simp [blank, h]

theorem blank_dropWhile_white (rest : List Char) :
    List.replicate (rest.takeWhile isWhite).length NUL ++ blank (rest.dropWhile isWhite)
      = blank rest := by
  induction rest with
  | nil => rfl
  | cons c rest ih =>
    by_cases hc : isWhite c = true
    · rw [List.dropWhile_cons_of_pos hc, List.takeWhile_cons_of_pos hc, List.length_cons,
        List.replicate_succ, List.cons_append, ih, blank, if_neg (ne_NUL_of_isWhite hc), if_pos hc]
    · rw [List.dropWhile_cons_of_neg hc, List.takeWhile_cons_of_neg hc]
      rfl

theorem blank_arg_append (tok r : List Char) (htok : ∀ c ∈ tok, isArgChar c = true) :
    blank (tok ++ r) = tok ++ blank r := by
  induction tok with
  | nil => rfl
  | cons c tok ih =>
    have hc := (isArgChar_iff c).1 (htok c (List.mem_cons_self _ _))
    rw [List.cons_append, blank, if_neg hc.1, if_neg (by simp [hc.2]),
      ih (fun x hx => htok x (List.mem_cons_of_mem _ hx)), List.cons_append]

theorem cstr_blank_of_not_arg (r : List Char) (h : isArgChar (r.headD NUL) = false) :
    cstr (blank r) = [] := by
  cases r with
  | nil => rfl
  | cons c r =>
    simp only [List.headD_cons] at h
    by_cases hn : c = NUL
    · simp [blank, hn, cstr]
    · have hw : isWhite c = true := by
        by_contra hw
        have := (isArgChar_iff c).2 ⟨hn, by simpa using hw⟩
        rw [h] at this
        exact Bool.false_ne_true this
      simp [blank, hn, hw, cstr]

theorem head_dropWhile_white (rest : List Char) :
    isWhite ((rest.dropWhile isWhite).headD NUL) = false := by
  induction rest with
  | nil => exact isWhite_NUL
  | cons c rest ih =>
    by_cases hc : isWhite c = true
    · rw [List.dropWhile_cons_of_pos hc]; exact ih
    · rw [List.dropWhile_cons_of_neg hc]; simpa using hc

theorem head_dropWhile_arg (rest : List Char) :
    isArgChar ((rest.dropWhile isArgChar).headD NUL) = false := by
  induction rest with
  | nil => exact isArgChar_NUL
  | cons c rest ih =>
    by_cases hc : isArgChar c = true
    · rw [List.dropWhile_cons_of_pos hc]; exact ih
    · rw [List.dropWhile_cons_of_neg hc]; simpa using hc

theorem tokens_arg_append (tok r : List Char) (hne : tok ≠ [])
    (htok : ∀ c ∈ tok, isArgChar c = true) (hr : isArgChar (r.headD NUL) = false) :
    tokens (cstr (tok ++ r)) = tok :: tokens (cstr r) := by
  have hnw : ∀ x ∈ tok, ¬ isWhite x = true := fun x hx => by
    simp [((isArgChar_iff x).1 (htok x hx)).2]
  rw [cstr_arg_append tok r htok]
  cases r with
  | nil =>
    simp [cstr, tokens, List.splitOnP_eq_single isWhite tok hnw, hne]
  | cons c r =>
    simp only [List.headD_cons] at hr
    by_cases hn : c = NUL
    · simp [cstr, hn, tokens, List.splitOnP_eq_single isWhite tok hnw, hne]
    · have hw : isWhite c = true := by
        by_contra hw
        have := (isArgChar_iff c).2 ⟨hn, by simpa using hw⟩
        rw [hr] at this
        exact Bool.false_ne_true this
      rw [cstr_cons_ne _ _ hn, tokens_cons_white _ _ hw]
      simp [tokens, List.splitOnP_first isWhite tok hnw c hw, hne]

theorem Argv.get_set_eq (a : Argv) (i : Nat) (v : Option Nat) (hi : i < MAXARGS) :
    (a.set i v).get i = v := by
  have hlen : i < a.val.length := by rw [a.property]; exact hi
  simp [Argv.get, Argv.set, List.getElem?_set_self hlen]

theorem Argv.get_set_ne (a : Argv) (i j : Nat) (v : Option Nat) (hij : i ≠ j) :
    (a.set i v).get j = a.get j := by
  simp [Argv.get, Argv.set, List.getElem?_set_ne hij]

theorem cstrAt_append_left (d r : List Char) : cstrAt (d ++ r) d.length = cstr r := by
  simp [cstrAt]

/-- What the parse loop computes from any state it can be in: with fewer
than `MAXARGS` arguments in all, it ends at the `break`, having blanked the
whitespace of the rest of the line and stored a pointer to each further
token; otherwise it ends at the "Too many arguments" return. -/
theorem parseLoop_spec :
    ∀ (fuel : Nat) (st : Parse), st.rest.length < fuel → st.argc < MAXARGS →
      (st.argc + (tokens (cstr st.rest)).length < MAXARGS →
        ∃ fin, parseLoop fuel st = Step.parsed fin ∧
          fin.argc = st.argc + (tokens (cstr st.rest)).length ∧
          fin.buffer = st.done ++ blank st.rest ∧
          (∀ i, i < st.argc → fin.argv.get i = st.argv.get i) ∧
          (∀ i, i < (tokens (cstr st.rest)).length →
            (fin.argv.get (st.argc + i)).isSome = true ∧
            argString fin.buffer fin.argv (st.argc + i)
              = (tokens (cstr st.rest)).getD i [])) ∧
      (MAXARGS ≤ st.argc + (tokens (cstr st.rest)).length →
        ∃ fin, parseLoop fuel st = Step.tooMany fin) := by
  intro fuel
  induction fuel with
  | zero => intro st h; exact absurd h (Nat.not_lt_zero _)
  | succ f ih =>
    intro st hlen hargc
    have hg := gobble_eq st.done st.rest
    generalize hd1 : st.done ++ List.replicate (st.rest.takeWhile isWhite).length NUL = d1 at hg
    generalize hr1 : st.rest.dropWhile isWhite = r1 at hg
    have htok1 : tokens (cstr st.rest) = tokens (cstr r1) := by
      rw [← hr1]; exact (tokens_dropWhile_white _).symm
    have hbuf1 : d1 ++ blank r1 = st.done ++ blank st.rest := by
      rw [← hd1, ← hr1, List.append_assoc, blank_dropWhile_white]
    have hlen1 : r1.length ≤ st.rest.length := by
      rw [← hr1]; exact (List.dropWhile_sublist _).length_le
    by_cases hstop : r1.headD NUL = NUL
    · have hloop : parseLoop (f + 1) st
          = Step.parsed { st with done := d1, rest := r1 } := by
        simp only [parseLoop, parseStep, hg, hstop, if_true]
      have hnil : tokens (cstr st.rest) = [] := by
        rw [htok1, cstr_of_head_NUL _ hstop, tokens_nil]
      rw [hnil]
      constructor
      · intro _
        refine ⟨_, hloop, rfl, ?_, fun i _ => rfl, fun i hi => absurd hi (Nat.not_lt_zero _)⟩
        show d1 ++ r1 = st.done ++ blank st.rest
        rw [← hbuf1, blank_of_stop _ hstop]
      · intro h
        simp only [List.length_nil, Nat.add_zero] at h
        exact absurd hargc (Nat.not_lt.2 h)
    · have hs := scanArg_eq d1 r1
      generalize htk : r1.takeWhile isArgChar = tok at hs
      generalize hr2 : r1.dropWhile isArgChar = r2 at hs
      have hsplit : tok ++ r2 = r1 := by
        rw [← htk, ← hr2]; exact List.takeWhile_append_dropWhile _ _
      have hw1 : isWhite (r1.headD NUL) = false := by
        rw [← hr1]; exact head_dropWhile_white _
      have htokne : tok ≠ [] := by
        cases r1 with
        | nil => exact absurd rfl hstop
        | cons c r =>
          simp only [List.headD_cons] at hstop hw1
          have hc : isArgChar c = true := (isArgChar_iff c).2 ⟨hstop, hw1⟩
          rw [← htk, List.takeWhile_cons_of_pos hc]
          exact List.cons_ne_nil _ _
      have htokall : ∀ c ∈ tok, isArgChar c = true := fun c hc => by
        rw [← htk] at hc; exact List.mem_takeWhile_imp hc
      have hr2stop : isArgChar (r2.headD NUL) = false := by
        rw [← hr2]; exact head_dropWhile_arg _
      have htoks : tokens (cstr st.rest) = tok :: tokens (cstr r2) := by
        rw [htok1, ← hsplit, tokens_arg_append tok r2 htokne htokall hr2stop]
      have hlen2 : r2.length < f := by
        have h1 : tok.length + r2.length = r1.length := by
          rw [← hsplit, List.length_append]
        have h2 : 0 < tok.length := List.length_pos.2 htokne
        omega
      rw [htoks]
      by_cases h15 : st.argc = MAXARGS - 1
      · have hloop : parseLoop (f + 1) st
            = Step.tooMany { st with done := d1, rest := r1 } := by
          simp only [parseLoop, parseStep, hg, hstop, h15, if_true, if_false]
        constructor
        · intro h
          simp only [List.length_cons, h15, MAXARGS] at h
          omega
        · intro _
          exact ⟨_, hloop⟩
      · have hloop : parseLoop (f + 1) st
            = parseLoop f ⟨d1 ++ tok, r2, st.argc + 1, st.argv.set st.argc (some d1.length)⟩ := by
          simp only [parseLoop, parseStep, hg, hstop, h15, hs, if_false]
        have hargc1 : st.argc + 1 < MAXARGS := by
          simp only [MAXARGS] at h15 hargc ⊢
          omega
        obtain ⟨ihA, ihB⟩ :=
          ih ⟨d1 ++ tok, r2, st.argc + 1, st.argv.set st.argc (some d1.length)⟩ hlen2 hargc1
        simp only at ihA ihB
        rw [hloop]
        constructor
        · intro h
          have h1 : st.argc + 1 + (tokens (cstr r2)).length < MAXARGS := by
            simp only [List.length_cons] at h
            omega
          obtain ⟨fin, hfin, hc, hb, hold, hnew⟩ := ihA h1
          have hbuf : fin.buffer = d1 ++ (tok ++ blank r2) := by
            rw [hb, List.append_assoc]
          have hslot : fin.argv.get st.argc = some d1.length := by
            rw [hold st.argc (Nat.lt_succ_self _), Argv.get_set_eq _ _ _ hargc]
          refine ⟨fin, hfin, ?_, ?_, ?_, ?_⟩
          · rw [hc, List.length_cons]; omega
          · rw [hbuf, ← hbuf1, ← hsplit, blank_arg_append tok r2 htokall]
          · intro i hi
            rw [hold i (Nat.lt_succ_of_lt hi), Argv.get_set_ne _ _ _ _ (Nat.ne_of_gt hi)]
          · intro i hi
            cases i with
            | zero =>
              refine ⟨by rw [Nat.add_zero, hslot]; rfl, ?_⟩
              rw [Nat.add_zero, argString, hslot]
              show cstrAt fin.buffer d1.length = tok
              rw [hbuf, cstrAt_append_left, cstr_arg_append tok _ htokall,
                cstr_blank_of_not_arg r2 hr2stop, List.append_nil]
            | succ j =>
              have hj : j < (tokens (cstr r2)).length := by
                simp only [List.length_cons] at hi
                omega
              have := hnew j hj
              rw [show st.argc + 1 + j = st.argc + (j + 1) by omega] at this
              simpa using this
        · intro h
          have h1 : MAXARGS ≤ st.argc + 1 + (tokens (cstr r2)).length := by
            simp only [List.length_cons] at h
            omega
          exact ihB h1

/-- A line with fewer than `MAXARGS` tokens is parsed to the end. -/
theorem parseLine_parsed (argv0 : Argv) (buf : List Char)
    (h : (tokens (cstr buf)).length < MAXARGS) :
    ∃ fin, parseLine argv0 buf = Step.parsed fin ∧
      fin.argc = (tokens (cstr buf)).length ∧
      fin.buffer = blank buf ∧
      (∀ i, i < (tokens (cstr buf)).length →
        (fin.argv.get i).isSome = true ∧
        argString fin.buffer fin.argv i = (tokens (cstr buf)).getD i []) := by
  have hspec := parseLoop_spec (buf.length + 1) ⟨[], buf, 0, argv0.set 0 none⟩
    (Nat.lt_succ_self _) (show 0 < 16 by decide)
  simp only [Nat.zero_add, List.nil_append] at hspec
  obtain ⟨fin, hfin, hc, hb, _, hnew⟩ := hspec.1 h
  exact ⟨fin, hfin, hc, hb, hnew⟩

/-- A line with `MAXARGS` tokens or more is rejected. -/
theorem parseLine_tooMany (argv0 : Argv) (buf : List Char)
    (h : MAXARGS ≤ (tokens (cstr buf)).length) :
    ∃ fin, parseLine argv0 buf = Step.tooMany fin := by
  have hspec := parseLoop_spec (buf.length + 1) ⟨[], buf, 0, argv0.set 0 none⟩
    (Nat.lt_succ_self _) (show 0 < 16 by decide)
  simp only [Nat.zero_add] at hspec
  exact hspec.2 h

/-- The parse rejects a line exactly when it has `MAXARGS` tokens or more. -/
theorem rejected_iff (argv0 : Argv) (buf : List Char) :
    (parseLine argv0 buf).rejected = true ↔ MAXARGS ≤ (tokens (cstr buf)).length := by
  constructor
  · intro h
    by_contra hlt
    obtain ⟨fin, hfin, _⟩ := parseLine_parsed argv0 buf (Nat.not_le.1 hlt)
    rw [hfin] at h
    exact Bool.false_ne_true h
  · intro h
    obtain ⟨fin, hfin⟩ := parseLine_tooMany argv0 buf h
    rw [hfin]
    rfl

theorem argStrings_eq_tokens (buffer : List Char) (argv : Argv) (toks : List (List Char))
    (h : ∀ i, i < toks.length → argString buffer argv i = toks.getD i []) :
    argStrings buffer argv toks.length = toks := by
  apply List.ext_getElem
  · simp [argStrings]
  · intro i h1 h2
    simp only [argStrings, List.getElem_map, List.getElem_range]
    rw [h i h2, List.getD_eq_getElem _ _ h2]

theorem argString_set_ne (buffer : List Char) (argv : Argv) (i j : Nat) (v : Option Nat)
    (hij : i ≠ j) : argString buffer (argv.set i v) j = argString buffer argv j := by
  simp only [argString, Argv.get_set_ne _ _ _ _ hij]

theorem splitOnP_no_sep (p : Char → Bool) :
    ∀ (l : List Char), ∀ t ∈ l.splitOnP p, ∀ c ∈ t, p c = false
  | [], t, ht, c, hc => by
    simp only [List.splitOnP_nil, List.mem_singleton] at ht
    subst ht
    simp at hc
  | x :: xs, t, ht, c, hc => by
    rw [List.splitOnP_cons] at ht
    by_cases hx : p x = true
    · rw [if_pos hx] at ht
      rcases List.mem_cons.1 ht with rfl | ht
      · simp at hc
      · exact splitOnP_no_sep p xs t ht c hc
    · rw [if_neg hx] at ht
      cases hsp : xs.splitOnP p with
      | nil => exact absurd hsp (List.splitOnP_ne_nil p xs)
      | cons hd tl =>
        rw [hsp] at ht
        simp only [List.modifyHead_cons, List.mem_cons] at ht
        have ih := splitOnP_no_sep p xs
        rw [hsp] at ih
        rcases ht with rfl | ht
        · rcases List.mem_cons.1 hc with rfl | hc
          · simpa using hx
          · exact ih hd (List.mem_cons_self _ _) c hc
        · exact ih t (List.mem_cons_of_mem _ ht) c hc

theorem tokens_shape (line : List Char) :
    ∀ t ∈ tokens line, t ≠ [] ∧ ∀ c ∈ t, isWhite c = false := by
  intro t ht
  simp only [tokens, List.mem_filter, decide_eq_true_eq] at ht
  exact ⟨ht.2, splitOnP_no_sep isWhite line t ht.1⟩

theorem tokens_all_white :
    ∀ (line : List Char), (∀ c ∈ line, isWhite c = true) → tokens line = []
  | [], _ => tokens_nil
  | c :: l, h => by
    rw [tokens_cons_white c l (h c (List.mem_cons_self _ _))]
    exact tokens_all_white l (fun x hx => h x (List.mem_cons_of_mem _ hx))

theorem render_append (a b : Console) : render (a ++ b) = render a ++ render b := by
  simp [render]

theorem render_cprintf (fmt : String) (args : List Arg) (out : Console) :
    render (cprintf fmt args out) = render out ++ printfmt fmt.toList args := by
  simp [cprintf, render]

theorem char_toNat_sub_eq_zero (a b : Char) :
    (a.toNat : Int) - (b.toNat : Int) = 0 ↔ a = b := by
  constructor
  · intro h
    have h1 : a.toNat = b.toNat := by omega
    rw [← Char.ofNat_toNat a, ← Char.ofNat_toNat b, h1]
  · rintro rfl
    omega

theorem cstr_eq_nil_iff (q : List Char) : cstr q = [] ↔ q.headD NUL = NUL := by
  cases q with
  | nil => simp [cstr]
  | cons b q =>
    by_cases hb : b = NUL
    · simp [cstr, hb]
    · simp [cstr, hb]

/-- The comparison `strcmp(p, q) == 0` holds exactly when the two C strings
are equal. -/
theorem strcmp_eq_zero_iff : ∀ (p q : List Char), strcmp p q = 0 ↔ cstr p = cstr q
  | [], q => by
    rw [strcmp, char_toNat_sub_eq_zero, eq_comm, ← cstr_eq_nil_iff, eq_comm]
    rfl
  | a :: p, q => by
    rw [strcmp]
    by_cases h : a ≠ NUL ∧ a = q.headD NUL
    · rw [if_pos h]
      cases q with
      | nil => exact absurd h.2 h.1
      | cons b q =>
        simp only [List.headD_cons] at h
        obtain ⟨ha, rfl⟩ := h
        rw [List.tail_cons, strcmp_eq_zero_iff p q, cstr_cons_ne _ _ ha, cstr_cons_ne _ _ ha]
        simp
    · rw [if_neg h, char_toNat_sub_eq_zero]
      constructor
      · intro hab
        have ha : a = NUL := by
          by_contra ha
          exact h ⟨ha, hab⟩
        have hq : q.headD NUL = NUL := by rw [← hab, ha]
        subst ha
        rw [(cstr_eq_nil_iff q).2 hq]
        simp [cstr]
      · intro hc
        by_cases ha : a = NUL
        · subst ha
          have : cstr q = [] := by rw [← hc]; simp [cstr]
          exact ((cstr_eq_nil_iff q).1 this).symm
        · rw [cstr_cons_ne _ _ ha] at hc
          cases q with
          | nil => simp [cstr] at hc
          | cons b q =>
            by_cases hb : b = NUL
            · simp [cstr, hb] at hc
            · rw [cstr_cons_ne _ _ hb] at hc
              simpa using (List.cons.inj hc).1

/-! ## Dispatch -/

theorem runcmd_parsed (cmds : List Command) (argv0 : Argv) (tf : Trapframe) (w : World)
    (fin : Parse) (h : parseLine argv0 w.cmdbuf = Step.parsed fin) :
    runcmd cmds argv0 tf w =
      if fin.argc = 0 then some ({ w with cmdbuf := fin.buffer }, 0)
      else dispatch cmds fin.argc (fin.argv.set fin.argc none) tf
        { w with cmdbuf := fin.buffer } := by
  simp only [runcmd, h]

theorem runcmd_tooMany (cmds : List Command) (argv0 : Argv) (tf : Trapframe) (w : World)
    (fin : Parse) (h : parseLine argv0 w.cmdbuf = Step.tooMany fin) :
    runcmd cmds argv0 tf w =
      some ({ console := cprintf "Too many arguments (max %d)\n" [Arg.int MAXARGS] w.console,
              cmdbuf := fin.buffer }, 0) := by
  simp only [runcmd, h]

theorem dispatch_no_match (argc : Nat) (argv : Argv) (tf : Trapframe) (w : World) (a : Nat)
    (ha : argv.get 0 = some a) :
    ∀ (cmds : List Command), (∀ c ∈ cmds, cstr c.name ≠ cstrAt w.cmdbuf a) →
      dispatch cmds argc argv tf w =
        some (⟨cprintf "Unknown command '%s'\n" [Arg.str (w.cmdbuf.drop a)] w.console,
          w.cmdbuf⟩, 0)
  | [], _ => by simp only [dispatch, ha]
  | c :: cs, h => by
    have hc : ¬ strcmp (w.cmdbuf.drop a) c.name = 0 := by
      rw [strcmp_eq_zero_iff]
      exact fun e => h c (List.mem_cons_self _ _) e.symm
    simp only [dispatch, ha, if_neg hc]
    exact dispatch_no_match argc argv tf w a ha cs (fun x hx => h x (List.mem_cons_of_mem _ hx))

theorem dispatch_first (argc : Nat) (argv : Argv) (tf : Trapframe) (w : World) (a : Nat)
    (ha : argv.get 0 = some a) (c : Command) (post : List Command)
    (hc : cstr c.name = cstrAt w.cmdbuf a) :
    ∀ (pre : List Command), (∀ x ∈ pre, cstr x.name ≠ cstrAt w.cmdbuf a) →
      dispatch (pre ++ c :: post) argc argv tf w = c.func argc argv tf w
  | [], _ => by
    have h0 : strcmp (w.cmdbuf.drop a) c.name = 0 := by
      rw [strcmp_eq_zero_iff]; exact hc.symm
    simp only [List.nil_append, dispatch, ha, if_pos h0]
  | x :: pre, h => by
    have hx : ¬ strcmp (w.cmdbuf.drop a) x.name = 0 := by
      rw [strcmp_eq_zero_iff]
      exact fun e => h x (List.mem_cons_self _ _) e.symm
    simp only [List.cons_append, dispatch, ha, if_neg hx]
    exact dispatch_first argc argv tf w a ha c post hc pre
      (fun y hy => h y (List.mem_cons_of_mem _ hy))

/-- The state in which `runcmd` dispatches an accepted line with at least
one token: the buffer is the blanked line, `argc` the number of tokens,
`argv` points to the tokens in order and ends with a null pointer. -/
theorem dispatch_state (argv0 : Argv) (buf : List Char) (t : List Char) (ts : List (List Char))
    (hacc : (parseLine argv0 buf).rejected = false) (htoks : tokens (cstr buf) = t :: ts) :
    ∃ fin a, parseLine argv0 buf = Step.parsed fin ∧ fin.argc = ts.length + 1 ∧
      fin.buffer = blank buf ∧
      (fin.argv.set fin.argc none).get 0 = some a ∧ cstrAt (blank buf) a = t ∧
      argStrings (blank buf) (fin.argv.set fin.argc none) (ts.length + 1) = t :: ts ∧
      (fin.argv.set fin.argc none).get (ts.length + 1) = none := by
  have hlt : (tokens (cstr buf)).length < MAXARGS := by
    by_contra hge
    have := (rejected_iff argv0 buf).2 (Nat.not_lt.1 hge)
    rw [hacc] at this
    exact Bool.false_ne_true this
  obtain ⟨fin, hfin, hc, hb, hnew⟩ := parseLine_parsed argv0 buf hlt
  rw [htoks] at hc hnew hlt
  simp only [List.length_cons] at hc hnew hlt
  have hset : ∀ i, i < ts.length + 1 →
      argString (blank buf) (fin.argv.set fin.argc none) i = (t :: ts).getD i [] := by
    intro i hi
    rw [argString_set_ne _ _ _ _ _ (by omega), ← hb]
    exact (hnew i hi).2
  have h0 := hnew 0 (Nat.succ_pos _)
  obtain ⟨a, ha⟩ := Option.isSome_iff_exists.1 h0.1
  have ha' : (fin.argv.set fin.argc none).get 0 = some a := by
    rw [Argv.get_set_ne _ _ _ _ (by omega), ha]
  refine ⟨fin, a, hfin, hc, hb, ha', ?_, ?_, ?_⟩
  · have := h0.2
    rw [argString, ha, hb] at this
    simpa using this
  · have := argStrings_eq_tokens (blank buf) (fin.argv.set fin.argc none) (t :: ts)
      (by simpa using hset)
    simpa using this
  · rw [← hc]
    exact Argv.get_set_eq _ _ _ (by rw [hc]; exact hlt)

/-! ## The claims about `runcmd` -/

/-- C4: for every command buffer whose line is not rejected for too many
arguments, the parse of `runcmd` ends at the `break` with `argc` the number
of maximal runs of non-whitespace characters of the line, the strings at
`argv[0]`, ..., `argv[argc - 1]` are exactly these runs from left to right,
each run is non-empty and holds no whitespace character, and `argv[argc]`
is null. -/
theorem runcmd_tokenizes (argv0 : Argv) (buf : List Char)
    (hacc : (parseLine argv0 buf).rejected = false) :
    ∃ fin, parseLine argv0 buf = Step.parsed fin ∧
      fin.argc = (tokens (cstr buf)).length ∧
      argStrings fin.buffer (fin.argv.set fin.argc none) fin.argc = tokens (cstr buf) ∧
      (fin.argv.set fin.argc none).get fin.argc = none ∧
      (∀ t ∈ tokens (cstr buf), t ≠ [] ∧ ∀ c ∈ t, isWhite c = false) := by
  have hlt : (tokens (cstr buf)).length < MAXARGS := by
    by_contra hge
    have := (rejected_iff argv0 buf).2 (Nat.not_lt.1 hge)
    rw [hacc] at this
    exact Bool.false_ne_true this
  obtain ⟨fin, hfin, hc, _, hnew⟩ := parseLine_parsed argv0 buf hlt
  refine ⟨fin, hfin, hc, ?_, ?_, tokens_shape _⟩
  · rw [hc]
    apply argStrings_eq_tokens
    intro i hi
    rw [← hc, argString_set_ne _ _ _ _ _ (by omega)]
    exact (hnew i hi).2
  · exact Argv.get_set_eq _ _ _ (by rw [hc]; exact hlt)

theorem runcmd_tokenizes_witness :
    ∃ fin, parseLine staleArgv "  help me \t now\r\n".toList = Step.parsed fin ∧
      fin.argc = (tokens (cstr "  help me \t now\r\n".toList)).length ∧
      argStrings fin.buffer (fin.argv.set fin.argc none) fin.argc
        = tokens (cstr "  help me \t now\r\n".toList) ∧
      (fin.argv.set fin.argc none).get fin.argc = none ∧
      (∀ t ∈ tokens (cstr "  help me \t now\r\n".toList),
        t ≠ [] ∧ ∀ c ∈ t, isWhite c = false) :=
  runcmd_tokenizes staleArgv "  help me \t now\r\n".toList (by decide)

/-- C5: on a line that is empty or holds only whitespace characters,
`runcmd` finds zero tokens and returns 0 with the console unchanged,
whatever the command table: no handler is called and nothing is printed. -/
theorem runcmd_blank_line (cmds : List Command) (argv0 : Argv) (tf : Trapframe) (w : World)
    (hblank : ∀ c ∈ cstr w.cmdbuf, isWhite c = true) :
    tokens (cstr w.cmdbuf) = [] ∧
    (∃ fin, parseLine argv0 w.cmdbuf = Step.parsed fin ∧ fin.argc = 0) ∧
    runcmd cmds argv0 tf w = some (⟨w.console, blank w.cmdbuf⟩, 0) := by
  have hnil := tokens_all_white _ hblank
  obtain ⟨fin, hfin, hc, hb, _⟩ :=
    parseLine_parsed argv0 w.cmdbuf (by rw [hnil]; exact Nat.succ_pos _)
  rw [hnil, List.length_nil] at hc
  refine ⟨hnil, ⟨fin, hfin, hc⟩, ?_⟩
  rw [runcmd_parsed cmds argv0 tf w fin hfin, if_pos hc, hb]

theorem runcmd_blank_line_witness :
    tokens (cstr (⟨[], " \t \r\n".toList⟩ : World).cmdbuf) = [] ∧
    (∃ fin, parseLine staleArgv (⟨[], " \t \r\n".toList⟩ : World).cmdbuf = Step.parsed fin ∧
      fin.argc = 0) ∧
    runcmd (commands twoFrames 2) staleArgv 0 ⟨[], " \t \r\n".toList⟩
      = some (⟨(⟨[], " \t \r\n".toList⟩ : World).console,
          blank (⟨[], " \t \r\n".toList⟩ : World).cmdbuf⟩, 0) :=
  runcmd_blank_line (commands twoFrames 2) staleArgv 0 ⟨[], " \t \r\n".toList⟩ (by decide)

/-- C6: on a line with more than 16 tokens `runcmd` returns 0 and its only
effect on the console is the one call that prints
"Too many arguments (max 16)", whatever the command table: no handler is
called, even when the first token names a command. -/
theorem runcmd_too_many (cmds : List Command) (argv0 : Argv) (tf : Trapframe) (w : World)
    (hmany : 16 < (tokens (cstr w.cmdbuf)).length) :
    ∃ w1, runcmd cmds argv0 tf w = some (w1, 0) ∧
      w1.console = w.console ++ [⟨"Too many arguments (max %d)\n", [Arg.int 16]⟩] ∧
      render w1.console = render w.console ++ "Too many arguments (max 16)\n".toList := by
  obtain ⟨fin, hfin⟩ := parseLine_tooMany argv0 w.cmdbuf (Nat.le_of_lt hmany)
  refine ⟨_, runcmd_tooMany cmds argv0 tf w fin hfin, rfl, ?_⟩
  rw [render_cprintf]
  rfl

theorem runcmd_too_many_witness :
    ∃ w1, runcmd (commands twoFrames 2) staleArgv 0
        ⟨[], "help 2 3 4 5 6 7 8 9 10 11 12 13 14 15 16 17".toList⟩ = some (w1, 0) ∧
      w1.console = (⟨[], "help 2 3 4 5 6 7 8 9 10 11 12 13 14 15 16 17".toList⟩ : World).console
        ++ [⟨"Too many arguments (max %d)\n", [Arg.int 16]⟩] ∧
      render w1.console
        = render (⟨[], "help 2 3 4 5 6 7 8 9 10 11 12 13 14 15 16 17".toList⟩ : World).console
          ++ "Too many arguments (max 16)\n".toList :=
  runcmd_too_many (commands twoFrames 2) staleArgv 0
    ⟨[], "help 2 3 4 5 6 7 8 9 10 11 12 13 14 15 16 17".toList⟩ (by decide)

/-- C7, at the failing input: the line "help 2 3 ... 16" has exactly 16
tokens, and `runcmd` rejects it: it prints "Too many arguments (max 16)",
calls no handler and returns 0. -/
theorem runcmd_rejects_sixteen :
    (tokens (cstr "help 2 3 4 5 6 7 8 9 10 11 12 13 14 15 16".toList)).length = 16 ∧
    (parseLine staleArgv "help 2 3 4 5 6 7 8 9 10 11 12 13 14 15 16".toList).rejected = true ∧
    (runcmd (commands twoFrames 2) staleArgv 0
        ⟨[], "help 2 3 4 5 6 7 8 9 10 11 12 13 14 15 16".toList⟩).map
      (fun r => (render r.1.console, r.2))
      = some ("Too many arguments (max 16)\n".toList, 0) := by
  refine ⟨by decide, by decide, by decide⟩

/-- C8: on an accepted line with at least one token whose first token is
the name of no row of the command table, `runcmd` returns 0 and its only
effect on the console is one call, which prints "Unknown command '...'"
with the first token between the quotes; no handler is called. -/
theorem runcmd_unknown_command (cmds : List Command) (argv0 : Argv) (tf : Trapframe)
    (w : World) (t : List Char) (ts : List (List Char))
    (hacc : (parseLine argv0 w.cmdbuf).rejected = false)
    (htoks : tokens (cstr w.cmdbuf) = t :: ts)
    (hno : ∀ c ∈ cmds, cstr c.name ≠ t) :
    ∃ w1 arg, runcmd cmds argv0 tf w = some (w1, 0) ∧
      w1.console = w.console ++ [⟨"Unknown command '%s'\n", [arg]⟩] ∧
      render w1.console
        = render w.console ++ ("Unknown command '".toList ++ t ++ "'\n".toList) := by
  obtain ⟨fin, a, hfin, hc, hb, ha, hstr, _, _⟩ := dispatch_state argv0 w.cmdbuf t ts hacc htoks
  have hne : ¬ fin.argc = 0 := by omega
  rw [runcmd_parsed cmds argv0 tf w fin hfin, if_neg hne, hb,
    dispatch_no_match _ _ tf ⟨w.console, blank w.cmdbuf⟩ a ha cmds
      (fun c hcm => by rw [hstr]; exact hno c hcm)]
  refine ⟨_, _, rfl, rfl, ?_⟩
  rw [render_cprintf]
  show _ ++ ("Unknown command '".toList ++ (cstr ((blank w.cmdbuf).drop a)
    ++ "'\n".toList)) = _
  rw [show cstr ((blank w.cmdbuf).drop a) = t from hstr, List.append_assoc]

theorem runcmd_unknown_command_witness :
    ∃ w1 arg, runcmd (commands twoFrames 2) staleArgv 0
        ⟨[], "nonexistent_cmd arg1".toList⟩ = some (w1, 0) ∧
      w1.console = (⟨[], "nonexistent_cmd arg1".toList⟩ : World).console
        ++ [⟨"Unknown command '%s'\n", [arg]⟩] ∧
      render w1.console
        = render (⟨[], "nonexistent_cmd arg1".toList⟩ : World).console ++
          ("Unknown command '".toList ++ "nonexistent_cmd".toList ++ "'\n".toList) :=
  runcmd_unknown_command (commands twoFrames 2) staleArgv 0
    ⟨[], "nonexistent_cmd arg1".toList⟩ "nonexistent_cmd".toList ["arg1".toList]
    (by decide) (by decide) (by decide)

/-- C9: on an accepted line whose first token equals the name of a row of
the command table, with no earlier row of that name, `runcmd` is the call
of that row's handler: the handler receives `argc` = the number of tokens,
an `argv` whose strings are all the tokens in order (the command name
first) followed by a null pointer, the trap frame, and the state with the
console untouched; what the handler returns is what `runcmd` returns. -/
theorem runcmd_calls_first_match (pre : List Command) (c : Command) (post : List Command)
    (argv0 : Argv) (tf : Trapframe) (w : World) (t : List Char) (ts : List (List Char))
    (hacc : (parseLine argv0 w.cmdbuf).rejected = false)
    (htoks : tokens (cstr w.cmdbuf) = t :: ts)
    (hpre : ∀ x ∈ pre, cstr x.name ≠ t) (hname : cstr c.name = t) :
    ∃ argv : Argv,
      argStrings (blank w.cmdbuf) argv (ts.length + 1) = t :: ts ∧
      argv.get (ts.length + 1) = none ∧
      runcmd (pre ++ c :: post) argv0 tf w
        = c.func (ts.length + 1) argv tf ⟨w.console, blank w.cmdbuf⟩ := by
  obtain ⟨fin, a, hfin, hc, hb, ha, hstr, hargs, hnull⟩ :=
    dispatch_state argv0 w.cmdbuf t ts hacc htoks
  have hne : ¬ fin.argc = 0 := by omega
  refine ⟨fin.argv.set fin.argc none, hargs, hnull, ?_⟩
  rw [runcmd_parsed (pre ++ c :: post) argv0 tf w fin hfin, if_neg hne, hb,
    dispatch_first _ _ tf ⟨w.console, blank w.cmdbuf⟩ a ha c post
      (by rw [hstr]; exact hname) pre (fun x hx => by rw [hstr]; exact hpre x hx), hc]

theorem runcmd_calls_first_match_witness :
    ∃ argv : Argv,
      argStrings (blank (⟨[], "kerninfo -v now".toList⟩ : World).cmdbuf) argv
          (["-v".toList, "now".toList].length + 1)
        = "kerninfo".toList :: ["-v".toList, "now".toList] ∧
      argv.get (["-v".toList, "now".toList].length + 1) = none ∧
      runcmd
          ([⟨"help".toList, "Display this list of commands".toList, mon_help⟩] ++
            ⟨"kerninfo".toList, "Display information about the kernel".toList,
              mon_kerninfo twoFrames⟩ ::
            [⟨"backtrace".toList, "Display information about the $esp & $ebp".toList,
              mon_backtrace twoFrames 2⟩])
          staleArgv 0 ⟨[], "kerninfo -v now".toList⟩
        = (⟨"kerninfo".toList, "Display information about the kernel".toList,
              mon_kerninfo twoFrames⟩ : Command).func
            (["-v".toList, "now".toList].length + 1) argv 0
            ⟨(⟨[], "kerninfo -v now".toList⟩ : World).console,
              blank (⟨[], "kerninfo -v now".toList⟩ : World).cmdbuf⟩ :=
  runcmd_calls_first_match
    [⟨"help".toList, "Display this list of commands".toList, mon_help⟩]
    ⟨"kerninfo".toList, "Display information about the kernel".toList, mon_kerninfo twoFrames⟩
    [⟨"backtrace".toList, "Display information about the $esp & $ebp".toList,
      mon_backtrace twoFrames 2⟩]
    staleArgv 0 ⟨[], "kerninfo -v now".toList⟩ "kerninfo".toList ["-v".toList, "now".toList]
    (by decide) (by decide) (by decide) (by decide)

/-! ## `help` -/

theorem helpLoop_eq :
    ∀ (rows : List (List Char × List Char)) (out : Console),
      helpLoop rows out
        = out ++ rows.map (fun row => ⟨"%s - %s\n", [Arg.str row.1, Arg.str row.2]⟩)
  | [], out => by simp [helpLoop]
  | row :: rows, out => by
    rw [helpLoop, helpLoop_eq rows, cprintf, List.append_assoc]
    rfl

theorem commands_text (m : Machine) (fuel : Nat) :
    (commands m fuel).map (fun c => (c.name, c.desc)) = commandText := rfl

/-- C10: whatever its arguments and the state, `mon_help` returns 0 and
adds to the console one call for each row of the command table, in table
order, each printing "name - description" and a newline, three lines in
all; nothing else of the state changes, and the text printed is the same
on every call. -/
theorem mon_help_lists_commands (m : Machine) (fuel argc : Nat) (argv : Argv)
    (tf : Trapframe) (w : World) :
    ∃ new : Console,
      mon_help argc argv tf w = some (⟨w.console ++ new, w.cmdbuf⟩, 0) ∧
      new.map (fun c => printfmt c.fmt.toList c.args)
        = (commands m fuel).map
            (fun c => cstr c.name ++ " - ".toList ++ cstr c.desc ++ "\n".toList) ∧
      render new =
        ("help - Display this list of commands\n" ++
          "kerninfo - Display information about the kernel\n" ++
          "backtrace - Display information about the $esp & $ebp\n").toList := by
  refine ⟨commandText.map (fun row => ⟨"%s - %s\n", [Arg.str row.1, Arg.str row.2]⟩), ?_, ?_, ?_⟩
  · simp only [mon_help, helpLoop_eq]
  · rw [List.map_map,
      show (commands m fuel).map
          (fun c => cstr c.name ++ " - ".toList ++ cstr c.desc ++ "\n".toList)
        = ((commands m fuel).map (fun c => (c.name, c.desc))).map
          (fun row => cstr row.1 ++ " - ".toList ++ cstr row.2 ++ "\n".toList) by
        rw [List.map_map]; rfl,
      commands_text]
    decide
  · decide

/-! ## The command loop -/

theorem monitorLoop_null (cmds : List Command) (tf : Trapframe) (fuel : Nat)
    (garbage : Nat → Argv) (rest : Input) (w : World) :
    monitorLoop cmds tf (fuel + 1) garbage (none :: rest) w
      = monitorLoop cmds tf fuel (fun k => garbage (k + 1)) rest
          ⟨w.console ++ [⟨"%s", [Arg.str "K> ".toList]⟩], w.cmdbuf⟩ := by
  simp [monitorLoop, readline, cprintf]

theorem monitorLoop_exhausted (cmds : List Command) (tf : Trapframe) :
    ∀ (fuel : Nat) (garbage : Nat → Argv) (w : World),
      monitorLoop cmds tf fuel garbage [] w
        = Monitoring.looping
            ⟨w.console ++ List.replicate fuel ⟨"%s", [Arg.str "K> ".toList]⟩, w.cmdbuf⟩ []
  | 0, _, w => by simp [monitorLoop]
  | fuel + 1, garbage, w => by
    have hstep : monitorLoop cmds tf (fuel + 1) garbage [] w
        = monitorLoop cmds tf fuel (fun k => garbage (k + 1)) []
            ⟨w.console ++ [⟨"%s", [Arg.str "K> ".toList]⟩], w.cmdbuf⟩ := by
      simp [monitorLoop, readline, cprintf]
    rw [hstep, monitorLoop_exhausted cmds tf fuel]
    simp [List.replicate_succ]

theorem monitorLoop_line (cmds : List Command) (tf : Trapframe) (fuel : Nat)
    (garbage : Nat → Argv) (line : List Char) (rest : Input) (w : World) :
    monitorLoop cmds tf (fuel + 1) garbage (some line :: rest) w
      = match runcmd cmds (garbage 0) tf
            ⟨cprintf "%s" [Arg.str "K> ".toList] w.console, line⟩ with
        | none => Monitoring.hung
        | some (w1, code) =>
          if code < 0 then Monitoring.returned w1 rest
          else monitorLoop cmds tf fuel (fun k => garbage (k + 1)) rest w1 := by
  simp [monitorLoop, readline]

/-- Lines whose dispatch returns zero or a positive value are read and
dispatched one per pass, and the loop goes on behind them. -/
theorem monitorLoop_afterLines (cmds : List Command) (tf : Trapframe) :
    ∀ (lines : List (List Char)) (garbage : Nat → Argv) (w w1 : World) (k : Nat) (rest : Input),
      afterLines cmds tf garbage lines w = some w1 →
      monitorLoop cmds tf (lines.length + k) garbage (lines.map some ++ rest) w
        = monitorLoop cmds tf k (fun j => garbage (j + lines.length)) rest w1
  | [], garbage, w, w1, k, rest, h => by
    simp only [afterLines, Option.some.injEq] at h
    subst h
    simp
  | line :: lines, garbage, w, w1, k, rest, h => by
    rw [afterLines] at h
    rw [List.length_cons, Nat.add_right_comm, List.map_cons, List.cons_append, monitorLoop_line]
    cases hr : runcmd cmds (garbage 0) tf
        ⟨cprintf "%s" [Arg.str "K> ".toList] w.console, line⟩ with
    | none => rw [hr] at h; simp at h
    | some r =>
      obtain ⟨w2, code⟩ := r
      rw [hr] at h
      simp only at h ⊢
      by_cases hc : code < 0
      · rw [if_pos hc] at h
        simp at h
      · rw [if_neg hc] at h
        rw [if_neg hc, monitorLoop_afterLines cmds tf lines _ w2 w1 k rest h]
        simp only [Nat.add_assoc, Nat.add_comm 1]

/-- C11, as the code behaves: with the input exhausted from the start, so
that every `readline` returns null, `monitor` over the built-in command
table has returned to its caller after no number of passes of its loop. -/
theorem monitor_spins_on_exhausted_input :
    ¬ ∃ (fuel : Nat) (w1 : World) (rest : Input),
      monitor (commands twoFrames 2) 0 fuel (fun _ => staleArgv) [] ⟨[], []⟩
        = Monitoring.returned w1 rest := by
  rintro ⟨fuel, w1, rest, h⟩
  rw [monitor, monitorLoop_exhausted] at h
  exact Monitoring.noConfusion h

/-- C11, amended: when `readline` returns null the loop of `monitor` does
not end: that pass prints the prompt, dispatches nothing and goes back to
the top of the loop with the rest of the input.  With the input exhausted
`monitor` is still looping after any number of passes, having printed its
two welcome lines and one prompt per pass, and has not returned to its
caller. -/
theorem monitor_null_read_continues (cmds : List Command) (tf : Trapframe) (fuel : Nat)
    (garbage : Nat → Argv) (rest : Input) (w : World) :
    monitorLoop cmds tf (fuel + 1) garbage (none :: rest) w
      = monitorLoop cmds tf fuel (fun k => garbage (k + 1)) rest
          ⟨w.console ++ [⟨"%s", [Arg.str "K> ".toList]⟩], w.cmdbuf⟩ ∧
    monitor cmds tf fuel garbage [] w
      = Monitoring.looping
          ⟨w.console ++ [⟨"Welcome to the JOS kernel monitor!\n", []⟩,
              ⟨"Type 'help' for a list of commands.\n", []⟩] ++
            List.replicate fuel ⟨"%s", [Arg.str "K> ".toList]⟩, w.cmdbuf⟩ [] := by
  refine ⟨monitorLoop_null cmds tf fuel garbage rest w, ?_⟩
  rw [monitor, monitorLoop_exhausted]
  simp [cprintf]

theorem monitor_eq (cmds : List Command) (tf : Trapframe) (fuel : Nat)
    (garbage : Nat → Argv) (input : Input) (w : World) :
    monitor cmds tf fuel garbage input w
      = monitorLoop cmds tf fuel garbage input
          ⟨w.console ++ [⟨"Welcome to the JOS kernel monitor!\n", []⟩,
            ⟨"Type 'help' for a list of commands.\n", []⟩], w.cmdbuf⟩ := by
  simp [monitor, cprintf]

/-- C12: let the input of `monitor` begin with the non-null lines `lines`,
each of whose dispatch returns zero or a positive value.  Then after one
pass per line `monitor` is at the top of its loop again, about to prompt
for the next line, with the rest of the input unread.  For the line `last`
that comes next: if its dispatch returns a negative value, the loop ends in
the pass that dispatches it, `monitor` returns in the state `runcmd` left,
no further prompt is printed and the input behind `last` is not read; if
its dispatch returns zero or a positive value, `monitor` is at the top of
its loop again behind it. -/
theorem monitor_stops_at_first_negative (cmds : List Command) (tf : Trapframe)
    (garbage : Nat → Argv) (lines : List (List Char)) (rest : Input) (w w1 : World)
    (hlines : afterLines cmds tf garbage lines
        ⟨w.console ++ [⟨"Welcome to the JOS kernel monitor!\n", []⟩,
          ⟨"Type 'help' for a list of commands.\n", []⟩], w.cmdbuf⟩ = some w1) :
    monitor cmds tf lines.length garbage (lines.map some ++ rest) w
      = Monitoring.looping w1 rest ∧
    ∀ (last : List Char) (w2 : World) (code : Int) (k : Nat),
      runcmd cmds (garbage lines.length) tf
          ⟨cprintf "%s" [Arg.str "K> ".toList] w1.console, last⟩ = some (w2, code) →
      (code < 0 →
        monitor cmds tf (lines.length + (k + 1)) garbage
            (lines.map some ++ some last :: rest) w
          = Monitoring.returned w2 rest) ∧
      (0 ≤ code →
        monitor cmds tf (lines.length + 1) garbage (lines.map some ++ some last :: rest) w
          = Monitoring.looping w2 rest) := by
  constructor
  · have h := monitorLoop_afterLines cmds tf lines garbage _ w1 0 rest hlines
    rw [Nat.add_zero] at h
    rw [monitor_eq, h, monitorLoop]
  · intro last w2 code k hlast
    constructor
    · intro hneg
      rw [monitor_eq,
        monitorLoop_afterLines cmds tf lines garbage _ w1 (k + 1) (some last :: rest) hlines,
        monitorLoop_line]
      simp only [Nat.zero_add, hlast, if_pos hneg]
    · intro hpos
      rw [monitor_eq,
        monitorLoop_afterLines cmds tf lines garbage _ w1 1 (some last :: rest) hlines,
        monitorLoop_line]
      simp only [Nat.zero_add, hlast, if_neg (Int.not_lt.2 hpos), monitorLoop]

theorem monitor_stops_at_first_negative_witness :
    (monitor (commands twoFrames 2) 0 ["help".toList, "nop".toList].length
          (fun _ => staleArgv)
          (["help".toList, "nop".toList].map some ++ [some "kerninfo".toList]) ⟨[], []⟩
        = Monitoring.looping afterHelpNop [some "kerninfo".toList] ∧
      ∀ (last : List Char) (w2 : World) (code : Int) (k : Nat),
        runcmd (commands twoFrames 2) staleArgv 0
            ⟨cprintf "%s" [Arg.str "K> ".toList] afterHelpNop.console, last⟩ = some (w2, code) →
        (code < 0 →
          monitor (commands twoFrames 2) 0 (["help".toList, "nop".toList].length + (k + 1))
              (fun _ => staleArgv)
              (["help".toList, "nop".toList].map some ++
                some last :: [some "kerninfo".toList]) ⟨[], []⟩
            = Monitoring.returned w2 [some "kerninfo".toList]) ∧
        (0 ≤ code →
          monitor (commands twoFrames 2) 0 (["help".toList, "nop".toList].length + 1)
              (fun _ => staleArgv)
              (["help".toList, "nop".toList].map some ++
                some last :: [some "kerninfo".toList]) ⟨[], []⟩
            = Monitoring.looping w2 [some "kerninfo".toList])) ∧
    monitor withExit 0 (["help".toList, "nop".toList].length + (3 + 1)) (fun _ => staleArgv)
        (["help".toList, "nop".toList].map some ++
          some "exit".toList :: [some "kerninfo".toList]) ⟨[], []⟩
      = Monitoring.returned afterExit [some "kerninfo".toList] :=
  ⟨monitor_stops_at_first_negative (commands twoFrames 2) 0 (fun _ => staleArgv)
      ["help".toList, "nop".toList] [some "kerninfo".toList] ⟨[], []⟩ afterHelpNop (by decide),
    ((monitor_stops_at_first_negative withExit 0 (fun _ => staleArgv)
        ["help".toList, "nop".toList] [some "kerninfo".toList] ⟨[], []⟩ afterHelpNop
        (by decide)).2 "exit".toList afterExit (-1) 3 (by decide)).1 (by decide)⟩

/-! ## The text of a backtrace -/

theorem hexDigit_digitChar :
    ∀ d, d < 16 → hexDigitValue (Nat.digitChar d) = d ∧ isHexDigit (Nat.digitChar d) = true := by
  decide

theorem hex8_eq (w : Nat) :
    hex8 w =
      [Nat.digitChar (w % WORD / 16 ^ 7 % 16), Nat.digitChar (w % WORD / 16 ^ 6 % 16),
        Nat.digitChar (w % WORD / 16 ^ 5 % 16), Nat.digitChar (w % WORD / 16 ^ 4 % 16),
        Nat.digitChar (w % WORD / 16 ^ 3 % 16), Nat.digitChar (w % WORD / 16 ^ 2 % 16),
        Nat.digitChar (w % WORD / 16 ^ 1 % 16), Nat.digitChar (w % WORD / 16 ^ 0 % 16)] :=
  rfl

theorem hexValue_hex8 (w : Nat) : hexValue (hex8 w) = w % WORD := by
  have hlt : w % WORD < 4294967296 := Nat.mod_lt _ (by decide)
  have hd : ∀ i, hexDigitValue (Nat.digitChar (w % WORD / 16 ^ i % 16))
      = w % WORD / 16 ^ i % 16 :=
    fun i => (hexDigit_digitChar _ (Nat.mod_lt _ (by decide))).1
  rw [hex8_eq]
  simp only [hexValue, List.foldl, hd]
  generalize w % WORD = x at hlt
  norm_num
  omega

theorem hex8_digits (w : Nat) : ∀ c ∈ hex8 w, isHexDigit c = true := by
  intro c hc
  simp only [hex8, List.mem_map] at hc
  obtain ⟨i, _, rfl⟩ := hc
  exact (hexDigit_digitChar _ (Nat.mod_lt _ (by decide))).2

theorem render_read_six_words (mem : Nat → Nat) (b : Nat) :
    render (read_six_words mem b []) = frameLine mem b := by
  simp only [read_six_words, render_cprintf, memoryTemp_eq]
  rfl

theorem render_print_function_info (m : Machine) (addr : Nat) (out : Console) :
    render (print_function_info m addr out)
      = render out ++ symbolLine (m.debuginfo_eip addr) := by
  have h1 : ∀ f l : List Char,
      printfmt "\t%s:%s: ".toList [Arg.str f, Arg.str l]
        = '\t' :: (cstr f ++ ':' :: (cstr l ++ [':', ' '])) := fun _ _ => rfl
  have h2 : ∀ (k : Int) (name : List Char) (n : Int),
      printfmt "%.*s+%d\n".toList [Arg.int k, Arg.str name, Arg.int n]
        = (if k < 0 then cstr name else (cstr name).take k.toNat) ++
          '+' :: ((toString n).toList ++ ['\n']) := fun _ _ _ => rfl
  simp only [print_function_info, render_cprintf, List.append_assoc, h1, h2]
  simp [symbolLine, cutName]

/-- C13: the frame line `read_six_words` prints is made of the frame base,
the return address and the four argument words each rendered by the
`%08x` conversion, and that conversion gives for every 32-bit word exactly
eight hexadecimal digits whose value is the word (so short values carry
leading zeros); two 32-bit words with the same rendering are equal. -/
theorem frame_fields_hex8 (mem : Nat → Nat) (b w v : Nat) (hw : w < WORD) (hv : v < WORD) :
    render (read_six_words mem b []) = frameLine mem b ∧
    (hex8 w).length = 8 ∧
    (∀ c ∈ hex8 w, isHexDigit c = true) ∧
    hexValue (hex8 w) = w ∧
    (hex8 w = hex8 v → w = v) := by
  refine ⟨render_read_six_words mem b, rfl, hex8_digits w, ?_, ?_⟩
  · rw [hexValue_hex8, Nat.mod_eq_of_lt hw]
  · intro h
    have h1 := hexValue_hex8 w
    rw [h, hexValue_hex8, Nat.mod_eq_of_lt hw, Nat.mod_eq_of_lt hv] at h1
    exact h1.symm

theorem frame_fields_hex8_witness :
    render (read_six_words twoFrames.mem 0x100 []) = frameLine twoFrames.mem 0x100 ∧
    (hex8 0xf0100068).length = 8 ∧
    (∀ c ∈ hex8 0xf0100068, isHexDigit c = true) ∧
    hexValue (hex8 0xf0100068) = 0xf0100068 ∧
    (hex8 0xf0100068 = hex8 4 → 0xf0100068 = 4) :=
  frame_fields_hex8 twoFrames.mem 0x100 0xf0100068 4 (by decide) (by decide)

theorem render_frameOutput (m : Machine) (b : Nat) :
    render (frameOutput m b)
      = frameLine m.mem b ++ symbolLine (m.debuginfo_eip (load m.mem (b + 4))) := by
  rw [frameOutput, render_print_function_info, render_read_six_words]

theorem render_frames (m : Machine) :
    ∀ (bases : List Nat), render (bases.flatMap (frameOutput m)) = backtraceText m bases
  | [] => rfl
  | b :: bases => by
    rw [List.flatMap_cons, render_append, render_frameOutput m b, render_frames m bases]
    simp [backtraceText]

theorem print_function_info_logged_eq (m : Machine) (addr : Nat) (out : Console)
    (log : List Nat) :
    print_function_info_logged m addr out log
      = (print_function_info m addr out, log ++ [addr]) := rfl

/-- The loop with the resolver calls recorded is the loop of
`mon_backtrace`: without the record it gives the same console and the same
pointer. -/
theorem backtraceLoopLogged_erase (m : Machine) :
    ∀ (fuel p : Nat) (out : Console) (log : List Nat),
      ((backtraceLoopLogged m fuel p out log).1, (backtraceLoopLogged m fuel p out log).2.2)
        = backtraceLoop m fuel p out
  | 0, _, _, _ => rfl
  | fuel + 1, p, out, log => by
    rw [backtraceLoopLogged, backtraceLoop]
    by_cases hp : p = 0
    · rw [if_pos hp, if_pos hp]
    · rw [if_neg hp, if_neg hp]
      simp only [print_function_info_logged_eq]
      exact backtraceLoopLogged_erase m fuel _ _ _

/-- Along a chain that ends at the sentinel the loop calls the resolver
once in each pass, with the return address of the frame of that pass. -/
theorem backtraceLoopLogged_chain (m : Machine) :
    ∀ (bases : List Nat) (p fuel : Nat) (out : Console) (log : List Nat),
      isChain m.mem p bases 0 = true → bases.length ≤ fuel →
      backtraceLoopLogged m fuel p out log
        = (out ++ bases.flatMap (frameOutput m),
            log ++ bases.map (fun b => load m.mem (b + 4)), 0)
  | [], p, fuel, out, log, h, _ => by
    simp only [isChain, beq_iff_eq] at h
    subst h
    cases fuel <;> simp [backtraceLoopLogged]
  | b :: bases, p, 0, out, log, _, hf => by
    simp at hf
  | b :: bases, p, fuel + 1, out, log, h, hf => by
    simp only [isChain, Bool.and_eq_true, bne_iff_ne, beq_iff_eq] at h
    obtain ⟨⟨hp, hb⟩, hrest⟩ := h
    subst hb
    rw [backtraceLoopLogged, if_neg hp]
    simp only [print_function_info_logged_eq, frameOutput_eq]
    rw [backtraceLoopLogged_chain m bases (load m.mem b) fuel _ _ hrest
      (Nat.le_of_succ_le_succ hf)]
    simp

set_option maxRecDepth 100000 in
/-- C14, as the code behaves: on the machine `twoFrames` the text
`backtrace` prints behind its header is not the text the claim describes
(frame lines "ebp ... eip ... args ..." and symbol lines
"file:line: name+count"): each frame line starts with two blanks and has
two blanks in front of `eip` and `args`, each symbol line starts with a
tab. -/
theorem backtrace_text_differs :
    (mon_backtrace twoFrames 2 1 staleArgv 0 ⟨[], []⟩).map (fun r => render r.1.console)
        ≠ some ("Stack backtrace:\n".toList ++ specBacktrace twoFrames [0x100, 0x200]) ∧
    (mon_backtrace twoFrames 2 1 staleArgv 0 ⟨[], []⟩).map (fun r => render r.1.console)
        = some ("Stack backtrace:\n".toList ++ backtraceText twoFrames [0x100, 0x200]) := by
  constructor <;> decide

/-- C14, amended: for a frame chain from the frame pointer that ends at the
sentinel, `mon_backtrace` returns 0 and prints, behind its header, for each
frame in order one line
"  ebp <hex8>  eip <hex8>  args <hex8> <hex8> <hex8> <hex8>" (two blanks in
front of `ebp`, `eip` and `args`) immediately followed by one line
"<tab><file>:<line>: <function-name>+<count>" made from the resolver's
answer for the return address of that same frame, the function name cut to
its explicit length; frame and symbol lines alternate.  The symbol
resolver is called once for each frame, in frame order, with the return
address of that frame, and not otherwise. -/
theorem backtrace_text (m : Machine) (fuel argc : Nat) (argv : Argv) (tf : Trapframe)
    (w : World) (bases : List Nat)
    (hchain : isChain m.mem (read_ebp m) bases 0 = true) (hfuel : bases.length ≤ fuel) :
    ∃ w1, mon_backtrace m fuel argc argv tf w = some (w1, 0) ∧
      w1.cmdbuf = w.cmdbuf ∧
      render w1.console
        = render w.console ++ "Stack backtrace:\n".toList ++ backtraceText m bases ∧
      backtraceLoopLogged m fuel (read_ebp m) (cprintf "Stack backtrace:\n" [] w.console) []
        = (w1.console, bases.map (fun b => load m.mem (b + 4)), 0) := by
  have hloop : backtraceLoop m fuel (read_ebp m) (cprintf "Stack backtrace:\n" [] w.console)
      = (cprintf "Stack backtrace:\n" [] w.console ++ bases.flatMap (frameOutput m), 0) := by
    rw [backtraceLoop_chain m 0 bases _ fuel _ hchain, if_neg (Nat.not_lt.2 hfuel),
      backtraceLoop_zero]
  refine ⟨⟨cprintf "Stack backtrace:\n" [] w.console ++ bases.flatMap (frameOutput m),
    w.cmdbuf⟩, ?_, rfl, ?_, ?_⟩
  · simp only [mon_backtrace, hloop, if_true]
  · rw [render_append, render_cprintf, render_frames m bases]
    rfl
  · rw [backtraceLoopLogged_chain m bases _ fuel _ [] hchain hfuel, List.nil_append]

theorem backtrace_text_witness :
    ∃ w1, mon_backtrace twoFrames 2 1 staleArgv 0 ⟨[], []⟩ = some (w1, 0) ∧
      w1.cmdbuf = (⟨[], []⟩ : World).cmdbuf ∧
      render w1.console
        = render (⟨[], []⟩ : World).console ++ "Stack backtrace:\n".toList ++
          backtraceText twoFrames [0x100, 0x200] ∧
      backtraceLoopLogged twoFrames 2 (read_ebp twoFrames)
          (cprintf "Stack backtrace:\n" [] (⟨[], []⟩ : World).console) []
        = (w1.console, [0x100, 0x200].map (fun b => load twoFrames.mem (b + 4)), 0) :=
  backtrace_text twoFrames 2 1 staleArgv 0 ⟨[], []⟩ [0x100, 0x200] (by decide) (by decide)

/-! ## The buffer after the split -/

theorem length_blank : ∀ (l : List Char), (blank l).length = l.length
  | [] => rfl
  | c :: cs => by
    rw [blank]
    split_ifs <;> simp [length_blank cs]

theorem blank_getD :
    ∀ (l : List Char) (i : Nat),
      (blank l).getD i NUL
        = if i < (cstr l).length ∧ isWhite (l.getD i NUL) = true then NUL else l.getD i NUL
  | [], i => by simp [blank]
  | c :: cs, i => by
    rw [blank]
    by_cases hn : c = NUL
    · simp [hn, cstr]
    · rw [if_neg hn, cstr_cons_ne _ _ hn]
      by_cases hw : isWhite c = true
      · rw [if_pos hw]
        cases i with
        | zero => simp [hw]
        | succ j =>
          rw [List.getD_cons_succ, List.getD_cons_succ, blank_getD cs j, List.length_cons]
          simp only [Nat.add_lt_add_iff_right]
      · rw [if_neg hw]
        cases i with
        | zero => simp [hw]
        | succ j =>
          rw [List.getD_cons_succ, List.getD_cons_succ, blank_getD cs j, List.length_cons]
          simp only [Nat.add_lt_add_iff_right]

/-- C15: for a line that is not rejected, the buffer `runcmd` leaves
behind its parse has the length of the original; every byte in front of
the original terminator that held a whitespace character holds NUL, every
other byte holds what it held, and the strings at `argv[0]`, ...,
`argv[argc - 1]` of this buffer are the non-whitespace runs of the
original line, in order. -/
theorem runcmd_splits_in_place (argv0 : Argv) (buf : List Char)
    (hacc : (parseLine argv0 buf).rejected = false) :
    ∃ fin, parseLine argv0 buf = Step.parsed fin ∧
      fin.buffer.length = buf.length ∧
      (∀ i, i < (cstr buf).length → isWhite (buf.getD i NUL) = true →
        fin.buffer.getD i NUL = NUL) ∧
      (∀ i, ¬ (i < (cstr buf).length ∧ isWhite (buf.getD i NUL) = true) →
        fin.buffer.getD i NUL = buf.getD i NUL) ∧
      argStrings fin.buffer fin.argv fin.argc = tokens (cstr buf) := by
  have hlt : (tokens (cstr buf)).length < MAXARGS := by
    by_contra hge
    have := (rejected_iff argv0 buf).2 (Nat.not_lt.1 hge)
    rw [hacc] at this
    exact Bool.false_ne_true this
  obtain ⟨fin, hfin, hc, hb, hnew⟩ := parseLine_parsed argv0 buf hlt
  refine ⟨fin, hfin, ?_, ?_, ?_, ?_⟩
  · rw [hb, length_blank]
  · intro i hi hw
    rw [hb, blank_getD, if_pos ⟨hi, hw⟩]
  · intro i hi
    rw [hb, blank_getD, if_neg hi]
  · rw [hc]
    exact argStrings_eq_tokens _ _ _ (fun i hi => (hnew i hi).2)

theorem runcmd_splits_in_place_witness :
    ∃ fin, parseLine staleArgv "kerninfo \t-v\n".toList = Step.parsed fin ∧
      fin.buffer.length = "kerninfo \t-v\n".toList.length ∧
      (∀ i, i < (cstr "kerninfo \t-v\n".toList).length →
        isWhite ("kerninfo \t-v\n".toList.getD i NUL) = true →
        fin.buffer.getD i NUL = NUL) ∧
      (∀ i, ¬ (i < (cstr "kerninfo \t-v\n".toList).length ∧
          isWhite ("kerninfo \t-v\n".toList.getD i NUL) = true) →
        fin.buffer.getD i NUL = "kerninfo \t-v\n".toList.getD i NUL) ∧
      argStrings fin.buffer fin.argv fin.argc = tokens (cstr "kerninfo \t-v\n".toList) :=
  runcmd_splits_in_place staleArgv "kerninfo \t-v\n".toList (by decide)

/-! ## The bounds of `argv` -/

/-- One pass of the parse keeps `argc` below `MAXARGS`, and a pass that
stores a pointer does so at an index two below `MAXARGS` or less. -/
theorem parseStep_argc (st : Parse) (h : st.argc < MAXARGS) :
    (parseStep st).state.argc < MAXARGS ∧
    (∀ st1, parseStep st = Step.again st1 →
      st.argc + 1 < MAXARGS ∧ st1.argc = st.argc + 1) := by
  unfold parseStep
  simp only
  split_ifs with h1 h2
  · exact ⟨h, fun st1 e => by cases e⟩
  · exact ⟨h, fun st1 e => by cases e⟩
  · have hlt : st.argc + 1 < MAXARGS := by
      simp only [MAXARGS] at h h2 ⊢
      omega
    refine ⟨hlt, fun st1 e => ⟨hlt, ?_⟩⟩
    injection e with e
    rw [← e]

theorem parseLoop_argc :
    ∀ (k : Nat) (st : Parse), st.argc < MAXARGS → (parseLoop k st).state.argc < MAXARGS
  | 0, st, h => h
  | k + 1, st, h => by
    have hs := parseStep_argc st h
    rw [parseLoop]
    cases hstep : parseStep st with
    | again st1 =>
      rw [hstep] at hs
      exact parseLoop_argc k st1 hs.1
    | parsed st1 => rw [hstep] at hs; exact hs.1
    | tooMany st1 => rw [hstep] at hs; exact hs.1

theorem storeIndices_lt :
    ∀ (k : Nat) (st : Parse), st.argc < MAXARGS → ∀ i ∈ storeIndices k st, i + 1 < MAXARGS
  | 0, st, _, i, hi => by simp [storeIndices] at hi
  | k + 1, st, h, i, hi => by
    have hs := parseStep_argc st h
    rw [storeIndices] at hi
    cases hstep : parseStep st with
    | again st1 =>
      rw [hstep] at hi hs
      rcases List.mem_cons.1 hi with rfl | hi
      · exact (hs.2 st1 rfl).1
      · exact storeIndices_lt k st1 hs.1 i hi
    | parsed st1 => rw [hstep] at hi; simp at hi
    | tooMany st1 => rw [hstep] at hi; simp at hi

theorem dispatch_cases (argc : Nat) (argv : Argv) (tf : Trapframe) (w : World) (a : Nat)
    (ha : argv.get 0 = some a) :
    ∀ (cmds : List Command),
      dispatch cmds argc argv tf w =
          some (⟨cprintf "Unknown command '%s'\n" [Arg.str (w.cmdbuf.drop a)] w.console,
            w.cmdbuf⟩, 0) ∨
        ∃ c ∈ cmds, dispatch cmds argc argv tf w = c.func argc argv tf w
  | [] => Or.inl (by simp only [dispatch, ha])
  | c :: cs => by
    by_cases hc : strcmp (w.cmdbuf.drop a) c.name = 0
    · exact Or.inr ⟨c, List.mem_cons_self _ _, by simp only [dispatch, ha, if_pos hc]⟩
    · have hd : dispatch (c :: cs) argc argv tf w = dispatch cs argc argv tf w := by
        simp only [dispatch, ha, if_neg hc]
      rw [hd]
      rcases dispatch_cases argc argv tf w a ha cs with h | ⟨x, hx, h⟩
      · exact Or.inl h
      · exact Or.inr ⟨x, List.mem_cons_of_mem _ hx, h⟩

/-- What `runcmd` does, by cases: it returns 0 having printed nothing or
one of its two diagnostics, or it is the call of the handler of a row of
the table with an `argc` between 1 and `MAXARGS - 1`. -/
theorem runcmd_cases (cmds : List Command) (argv0 : Argv) (tf : Trapframe) (w : World) :
    (∃ w1, runcmd cmds argv0 tf w = some (w1, 0) ∧
      (w1.console = w.console ∨
        w1.console = w.console ++ [⟨"Too many arguments (max %d)\n", [Arg.int 16]⟩] ∨
        ∃ arg, w1.console = w.console ++ [⟨"Unknown command '%s'\n", [arg]⟩])) ∨
    (∃ c ∈ cmds, ∃ (argc : Nat) (argv : Argv), 1 ≤ argc ∧ argc ≤ 15 ∧
      runcmd cmds argv0 tf w = c.func argc argv tf ⟨w.console, blank w.cmdbuf⟩) := by
  by_cases hlt : (tokens (cstr w.cmdbuf)).length < MAXARGS
  · by_cases hnil : tokens (cstr w.cmdbuf) = []
    · obtain ⟨fin, hfin, hc, _, _⟩ := parseLine_parsed argv0 w.cmdbuf hlt
      rw [hnil, List.length_nil] at hc
      exact Or.inl ⟨⟨w.console, fin.buffer⟩,
        by rw [runcmd_parsed cmds argv0 tf w fin hfin, if_pos hc], Or.inl rfl⟩
    · obtain ⟨t, ts, htoks⟩ := List.exists_cons_of_ne_nil hnil
      have hacc : (parseLine argv0 w.cmdbuf).rejected = false := by
        by_contra hr
        have := (rejected_iff argv0 w.cmdbuf).1 (by simpa using hr)
        omega
      obtain ⟨fin, a, hfin, hc, hb, ha, _, _, _⟩ :=
        dispatch_state argv0 w.cmdbuf t ts hacc htoks
      have hne : ¬ fin.argc = 0 := by omega
      have hrun := runcmd_parsed cmds argv0 tf w fin hfin
      rw [if_neg hne, hb] at hrun
      rcases dispatch_cases fin.argc (fin.argv.set fin.argc none) tf
          ⟨w.console, blank w.cmdbuf⟩ a ha cmds with h | ⟨c, hcm, h⟩
      · exact Or.inl ⟨_, by rw [hrun, h], Or.inr (Or.inr ⟨_, rfl⟩)⟩
      · refine Or.inr ⟨c, hcm, fin.argc, fin.argv.set fin.argc none, by omega, ?_, by
          rw [hrun, h]⟩
        rw [htoks, List.length_cons] at hlt
        simp only [MAXARGS] at hlt
        omega
  · obtain ⟨fin, hfin⟩ := parseLine_tooMany argv0 w.cmdbuf (Nat.not_lt.1 hlt)
    exact Or.inl ⟨_, runcmd_tooMany cmds argv0 tf w fin hfin, Or.inr (Or.inl rfl)⟩

/-- C16: for every command buffer, every index at which `runcmd` writes
into `argv` (the null store in front of the loop, the pointer store of
each pass, the null store behind the loop) is below 16; after any number
of passes of the parse `argc` is at most 15; and when `runcmd` calls a
handler it is a handler of the table, called with an `argc` between 1
and 15. -/
theorem argv_writes_in_bounds (cmds : List Command) (argv0 : Argv) (tf : Trapframe)
    (w : World) :
    (∀ i ∈ argvWrites argv0 w.cmdbuf, i < 16) ∧
    (∀ k, (parseLoop k
        { done := [], rest := w.cmdbuf, argc := 0, argv := argv0.set 0 none }).state.argc
      ≤ 15) ∧
    ((∃ w1, runcmd cmds argv0 tf w = some (w1, 0) ∧
        (w1.console = w.console ∨
          w1.console = w.console ++ [⟨"Too many arguments (max %d)\n", [Arg.int 16]⟩] ∨
          ∃ arg, w1.console = w.console ++ [⟨"Unknown command '%s'\n", [arg]⟩])) ∨
      (∃ c ∈ cmds, ∃ (argc : Nat) (argv : Argv), 1 ≤ argc ∧ argc ≤ 15 ∧
        runcmd cmds argv0 tf w = c.func argc argv tf ⟨w.console, blank w.cmdbuf⟩)) := by
  have h0 : (⟨[], w.cmdbuf, 0, argv0.set 0 none⟩ : Parse).argc < MAXARGS :=
    show 0 < 16 by decide
  refine ⟨?_, ?_, runcmd_cases cmds argv0 tf w⟩
  · intro i hi
    simp only [argvWrites, List.mem_cons, List.mem_append] at hi
    rcases hi with (rfl | hi) | hi
    · decide
    · exact Nat.lt_of_succ_lt (storeIndices_lt _ _ h0 i hi)
    · have hfin := parseLoop_argc (w.cmdbuf.length + 1) _ h0
      cases hp : parseLine argv0 w.cmdbuf with
      | again st => rw [hp] at hi; simp at hi
      | tooMany st => rw [hp] at hi; simp at hi
      | parsed fin =>
        rw [hp] at hi
        simp only [List.mem_singleton] at hi
        rw [parseLine] at hp
        rw [hp] at hfin
        rw [hi]
        exact hfin
  · intro k
    exact Nat.le_of_lt_succ (parseLoop_argc k _ h0)

/-! ## The return codes of the built-in commands -/

theorem runcmd_code_zero (cmds : List Command) (argv0 : Argv) (tf : Trapframe) (w w1 : World)
    (r : Int)
    (hcmds : ∀ c ∈ cmds, ∀ argc argv tf0 w0 w2 r0,
      c.func argc argv tf0 w0 = some (w2, r0) → r0 = 0)
    (h : runcmd cmds argv0 tf w = some (w1, r)) : r = 0 := by
  rcases runcmd_cases cmds argv0 tf w with ⟨w2, h2, _⟩ | ⟨c, hc, argc, argv, _, _, h2⟩
  · rw [h2] at h
    simp only [Option.some.injEq, Prod.mk.injEq] at h
    exact h.2.symm
  · rw [h2] at h
    exact hcmds c hc _ _ _ _ _ _ h

theorem builtin_codes (m : Machine) (fuel : Nat) :
    ∀ c ∈ commands m fuel, ∀ argc argv tf0 w0 w2 r0,
      c.func argc argv tf0 w0 = some (w2, r0) → r0 = 0 := by
  intro c hc argc argv tf0 w0 w2 r0 h
  have hmem : c ∈ [(⟨"help".toList, "Display this list of commands".toList, mon_help⟩ : Command),
      ⟨"kerninfo".toList, "Display information about the kernel".toList, mon_kerninfo m⟩,
      ⟨"backtrace".toList, "Display information about the $esp & $ebp".toList,
        mon_backtrace m fuel⟩] := hc
  simp only [List.mem_cons, List.mem_singleton, List.not_mem_nil, or_false] at hmem
  rcases hmem with rfl | rfl | rfl
  · simp only [mon_help, Option.some.injEq, Prod.mk.injEq] at h
    exact h.2.symm
  · simp only [mon_kerninfo, Option.some.injEq, Prod.mk.injEq] at h
    exact h.2.symm
  · simp only [mon_backtrace] at h
    split_ifs at h
    simp only [Option.some.injEq, Prod.mk.injEq] at h
    exact h.2.symm

theorem monitorLoop_never_returns (cmds : List Command) (tf : Trapframe)
    (hcmds : ∀ c ∈ cmds, ∀ argc argv tf0 w0 w2 r0,
      c.func argc argv tf0 w0 = some (w2, r0) → r0 = 0) :
    ∀ (k : Nat) (garbage : Nat → Argv) (input : Input) (w w1 : World) (rest : Input),
      monitorLoop cmds tf k garbage input w ≠ Monitoring.returned w1 rest
  | 0, _, _, _, _, _ => by simp [monitorLoop]
  | k + 1, garbage, [], w, w1, rest => by
    rw [monitorLoop_exhausted]
    exact fun e => Monitoring.noConfusion e
  | k + 1, garbage, none :: input, w, w1, rest => by
    rw [monitorLoop_null]
    exact monitorLoop_never_returns cmds tf hcmds k _ _ _ _ _
  | k + 1, garbage, some line :: input, w, w1, rest => by
    rw [monitorLoop_line]
    cases hr : runcmd cmds (garbage 0) tf
        ⟨cprintf "%s" [Arg.str "K> ".toList] w.console, line⟩ with
    | none => exact fun e => Monitoring.noConfusion e
    | some res =>
      obtain ⟨w2, code⟩ := res
      have hz := runcmd_code_zero cmds _ tf _ w2 code hcmds hr
      subst hz
      simp only [lt_self_iff_false, if_false]
      exact monitorLoop_never_returns cmds tf hcmds k _ _ _ _ _

/-- C17: with the built-in command table, whenever `runcmd` returns, it
returns 0, whatever the line; and so `monitor` over this table has not
returned to its caller after any number of passes of its loop, whatever
the input. -/
theorem builtin_runcmd_returns_zero (m : Machine) (fuel : Nat) (argv0 : Argv)
    (tf : Trapframe) (w w1 : World) (r : Int)
    (h : runcmd (commands m fuel) argv0 tf w = some (w1, r)) :
    r = 0 ∧
    ∀ (k : Nat) (garbage : Nat → Argv) (input : Input) (w0 w2 : World) (rest : Input),
      monitor (commands m fuel) tf k garbage input w0 ≠ Monitoring.returned w2 rest :=
  ⟨runcmd_code_zero _ argv0 tf w w1 r (builtin_codes m fuel) h,
    fun k garbage input _ w2 rest =>
      monitorLoop_never_returns _ tf (builtin_codes m fuel) k garbage input _ w2 rest⟩

theorem builtin_runcmd_returns_zero_witness :
    (0 : Int) = 0 ∧
    ∀ (k : Nat) (garbage : Nat → Argv) (input : Input) (w0 w2 : World) (rest : Input),
      monitor (commands twoFrames 2) 0 k garbage input w0 ≠ Monitoring.returned w2 rest :=
  builtin_runcmd_returns_zero twoFrames 2 staleArgv 0 ⟨[], "help now".toList⟩
    ⟨helpLoop commandText [], blank "help now".toList⟩ 0 (by decide)

end Monitor
